import Mathlib

/-! # Tic-Tac-Toe-Squared server: the authentication core and the move history

A shallow embedding of `src/auth/auth.go` (namespace `Auth`) and of
`src/game/movehistory.go` (namespace `Game`).

* Go strings are modelled by Lean strings (sequences of Unicode scalar values),
  byte slices by lists of naturals below 256.
* A Go `(value, error)` pair is an `Except String value` whose error carries the
  message of the Go error (a pair `value × Option String` where the Go code
  returns a value next to a non-nil error); a call that may also stop with a
  run-time panic returns a `GoResult`.
* `time.Now()` is an argument `now` of every operation that reads the clock: one
  instant, in nanoseconds since the Unix epoch, for the whole call.  A reading
  of the system clock fits a signed 64-bit count of nanoseconds; statements
  that relate `now.Unix()` to exact distances in time say so.
* The relational store behind `db.Db` is the state `Db`: the two tables and a
  schedule of the failures of the statements to come, so that every error
  branch of the Go code can be taken.  Names are compared by equality.  The
  process-wide `secretMap` is the state `SecretMap`.  Operations return the new
  state next to their result.
* The loop of `getUniqueID` has no bound in the source; it takes a number of
  iterations `fuel` and the result `none` stands for a loop that is still
  running after `fuel` iterations.
* Library routines whose code is not part of the repository and whose internals
  play no role (HMAC-SHA256, bcrypt, the Unicode lower-case table) are the
  fields of `Lib`; `strconv.Atoi`, `strings.ToLower`, `encoding/hex`,
  `encoding/base64` and `(*big.Int).Bytes` are modelled after their
  documentation.
-/

set_option linter.unusedVariables false
set_option exponentiation.threshold 1024

namespace Auth

/-! ## Values -/

/-- A byte slice. -/
abbrev Bytes := List Nat

/-- Outcome of a Go call that returns `(value, error)` or stops with a panic. -/
inductive GoResult (α : Type) where
  | ok (a : α)
  | err (msg : String)
  | panic
deriving DecidableEq, Repr

/-- The call returned with a non-nil error. -/
def GoResult.isErr {α : Type} : GoResult α → Bool
  | .err _ => true
  | _ => false

/-- The call returned (with a value or with an error) instead of panicking. -/
def GoResult.returned {α : Type} : GoResult α → Bool
  | .panic => false
  | _ => true

/-- Library routines used by the package, kept abstract. -/
structure Lib where
  /-- HMAC-SHA256 of `message` under `key` (`crypto/hmac` with `sha256.New`). -/
  hmacSHA256 : (key : String) → (message : String) → Bytes
  /-- The table behind `unicode.ToLower` for runes above U+007F. -/
  unicodeLower : Char → Char
  /-- The function `bcrypt.GenerateFromPassword` at the default cost. -/
  bcryptGenerate : (password : String) → Except String Bytes
  /-- The function `bcrypt.CompareHashAndPassword`; `.ok ()` is a nil error. -/
  bcryptCompare : (hash : Bytes) → (password : String) → Except String Unit

/-- Conversion to `int64`: the two's complement value of the low 64 bits. -/
def toInt64 (x : Int) : Int := (x + 2 ^ 63) % 2 ^ 64 - 2 ^ 63

/-- Conversion to `uint` (64 bits). -/
def toUint (x : Nat) : Nat := x % 2 ^ 64

/-! ## Library models: `strconv`, `strings`, `encoding/hex`, `encoding/base64`, `math/big` -/

/-- Value of a decimal digit. -/
def digitVal (c : Char) : Option Nat :=
  if 48 ≤ c.toNat ∧ c.toNat ≤ 57 then some (c.toNat - 48) else none

/-- Decimal value of a list of digits read after the prefix value `acc`. -/
def parseDigitsAux : List Char → Nat → Option Nat
  | [], acc => some acc
  | c :: cs, acc =>
    match digitVal c with
    | none => none
    | some d => parseDigitsAux cs (acc * 10 + d)

/-- Value of a non-empty run of decimal digits. -/
def parseDigits : List Char → Option Nat
  | [] => none
  | c :: cs => parseDigitsAux (c :: cs) 0

/-- The function `strconv.Atoi` on a platform with 64-bit `int`: an optional
sign followed by one or more decimal digits, the value within the `int64`
range. -/
def Atoi (s : String) : Except String Int :=
  let body : Bool × List Char :=
    match s.data with
    | '-' :: rest => (true, rest)
    | '+' :: rest => (false, rest)
    | cs => (false, cs)
  match parseDigits body.2 with
  | none => .error "strconv.Atoi: invalid syntax"
  | some n =>
    let v : Int := if body.1 then -(n : Int) else (n : Int)
    if -(2 : Int) ^ 63 ≤ v ∧ v < (2 : Int) ^ 63 then .ok v
    else .error "strconv.Atoi: value out of range"

/-- The function `unicode.ToLower`: the ASCII range is computed, the rest is
looked up in the table. -/
def toLowerRune (tbl : Char → Char) (c : Char) : Char :=
  if c.toNat ≤ 127 then
    if 65 ≤ c.toNat ∧ c.toNat ≤ 90 then Char.ofNat (c.toNat + 32) else c
  else tbl c

/-- The function `strings.ToLower`. -/
def ToLower (tbl : Char → Char) (s : String) : String :=
  String.mk (s.data.map (toLowerRune tbl))

/-- Value of a hexadecimal digit (`fromHexChar`). -/
def fromHexChar (c : Char) : Option Nat :=
  if 48 ≤ c.toNat ∧ c.toNat ≤ 57 then some (c.toNat - 48)
  else if 97 ≤ c.toNat ∧ c.toNat ≤ 102 then some (c.toNat - 97 + 10)
  else if 65 ≤ c.toNat ∧ c.toNat ≤ 70 then some (c.toNat - 65 + 10)
  else none

/-- Pairs of hexadecimal digits to bytes.  What is modelled is whether the
decoding succeeds and the decoded bytes; the texts of the two errors are
nominal (Go names the offending byte, and which of the two errors a string
with both defects gets depends on the library version). -/
def hexDecodeList : List Char → Except String Bytes
  | [] => .ok []
  | [_] => .error "encoding/hex: odd length hex string"
  | a :: b :: rest =>
    match fromHexChar a, fromHexChar b with
    | some x, some y =>
      match hexDecodeList rest with
      | .ok bs => .ok ((x * 16 + y) :: bs)
      | .error e => .error e
    | _, _ => .error "encoding/hex: invalid byte"

/-- The function `hex.DecodeString`. -/
def hexDecodeString (s : String) : Except String Bytes := hexDecodeList s.data

/-- The alphabet of `base64.StdEncoding`. -/
def encodeStd : List Char :=
  "ABCDEFGHIJKLMNOPQRSTUVWXYZabcdefghijklmnopqrstuvwxyz0123456789+/".data

/-- The character of a 6-bit value. -/
def b64Char (i : Nat) : Char := encodeStd.getD i 'A'

/-- The 6-bit value of a character of the alphabet. -/
def b64Val (c : Char) : Option Nat :=
  if encodeStd.indexOf c < 64 then some (encodeStd.indexOf c) else none

/-- Padded base64 of a byte list, three bytes to four characters. -/
def b64EncodeList : Bytes → List Char
  | [] => []
  | [a] => [b64Char (a / 4), b64Char (a % 4 * 16), '=', '=']
  | [a, b] => [b64Char (a / 4), b64Char (a % 4 * 16 + b / 16), b64Char (b % 16 * 4), '=']
  | a :: b :: c :: rest =>
    b64Char (a / 4) :: b64Char (a % 4 * 16 + b / 16) :: b64Char (b % 16 * 4 + c / 64)
      :: b64Char (c % 64) :: b64EncodeList rest

/-- The method `base64.StdEncoding.EncodeToString`. -/
def base64EncodeToString (bs : Bytes) : String := String.mk (b64EncodeList bs)

/-- Quantum-wise decoding of padded base64 (line breaks already removed): every
quantum has four characters, padding may only close the last one, the unused
low bits of a padded quantum are not checked.  What is modelled is whether the
decoding succeeds and the decoded bytes; the error text is nominal (Go adds
the position of the offending input byte). -/
def b64DecodeQuads : List Char → Except String Bytes
  | a :: b :: c :: d :: rest =>
    match b64Val a, b64Val b with
    | some x, some y =>
      if c = '=' then
        if d = '=' ∧ rest = [] then .ok [x * 4 + y / 16]
        else .error "illegal base64 data"
      else
        match b64Val c with
        | none => .error "illegal base64 data"
        | some z =>
          if d = '=' then
            if rest = [] then .ok [x * 4 + y / 16, y % 16 * 16 + z / 4]
            else .error "illegal base64 data"
          else
            match b64Val d with
            | none => .error "illegal base64 data"
            | some w =>
              match b64DecodeQuads rest with
              | .ok bs => .ok ((x * 4 + y / 16) :: (y % 16 * 16 + z / 4) :: (z % 4 * 64 + w) :: bs)
              | .error e => .error e
    | _, _ => .error "illegal base64 data"
  | [] => .ok []
  | _ => .error "illegal base64 data"

/-- The method `base64.StdEncoding.DecodeString`: carriage returns and line
feeds are skipped, the rest is decoded quantum by quantum. -/
def base64DecodeString (s : String) : Except String Bytes :=
  b64DecodeQuads (s.data.filter (fun c => !(c = '\n' ∨ c = '\r')))

/-- Big-endian digits in base 256 of `n`, most significant first, in front of
`acc`; `fuel` bounds the number of digits. -/
def bigEndianAux : Nat → Nat → Bytes → Bytes
  | 0, _, acc => acc
  | fuel + 1, n, acc => if n = 0 then acc else bigEndianAux fuel (n / 256) (n % 256 :: acc)

/-- The method `(*big.Int).Bytes` on a non-negative integer: the big-endian
bytes without leading zeros. -/
def bigIntBytes (n : Nat) : Bytes := bigEndianAux n n []

/-! ## Secrets (`Secret`, `secretMap`) -/

/-- A session secret: `value` is the `*big.Int`, `expiration` the `time.Time`, an
instant in nanoseconds since the Unix epoch. -/
structure Secret where
  value : Nat
  expiration : Int
deriving DecidableEq, Repr

/-- The process-wide `secretMap`, keyed by user identifier. -/
abbrev SecretMap := Nat → Option Secret

/-- The constant `time.Minute`, in nanoseconds. -/
def Minute : Int := 60 * 1000000000

/-- Big-endian bytes of the value. -/
def Secret.Bytes (s : Secret) : Bytes := bigIntBytes s.value

/-- Standard base64 of the bytes. -/
def Secret.Base64 (s : Secret) : String := base64EncodeToString s.Bytes

/-- Same as `Base64`. -/
def Secret.String (s : Secret) : String := s.Base64

/-- The test `time.Now().After(s.expiration)`. -/
def Secret.Expired (s : Secret) (now : Int) : Bool := decide (s.expiration < now)

/-- The assignment `s.expiration = time.Now().Add(30 * time.Minute)`. -/
def Secret.resetExpiration (s : Secret) (now : Int) : Secret :=
  { s with expiration := now + 30 * Minute }

/-- The variable `bitSize`. -/
def bitSize : Nat := 512

/-- The variable `limit` once initialised: `2 ^ bitSize`. -/
def limit : Nat := 2 ^ bitSize

/-- The call `rand.Int(rand.Reader, max)`: reading the entropy source fails, or
it yields a number that is reduced into `[0, max)`. -/
def randInt (entropy : Except String Nat) (max : Nat) : Except String Nat :=
  match entropy with
  | .error e => .error e
  | .ok raw => .ok (raw % max)

/-- A fresh secret below `limit`, valid for 30 minutes from `now`. -/
def newSecret (entropy : Except String Nat) (now : Int) : Except String Secret :=
  match randInt entropy limit with
  | .error e => .error e
  | .ok value => .ok (Secret.resetExpiration { value := value, expiration := 0 } now)

/-! ## The store behind `db.Db` -/

/-- A row of table `users`. -/
structure UserRow where
  userid : Nat
  name : String
  salthash : String
deriving DecidableEq, Repr

/-- The row `type='users'` of table `count`. -/
structure CountRow where
  count : Nat
  scale : Nat
  addConst : Nat
deriving DecidableEq, Repr

/-- State of the store.  `faults` is the schedule of the statements still to
come: the statement that meets `some e` fails with error `e`, the statement that
meets `none`, or an exhausted schedule, is carried out. -/
structure Db where
  users : List UserRow
  count : Option CountRow
  faults : List (Option String)
deriving DecidableEq, Repr

/-- The message of `sql.ErrNoRows`. -/
def errNoRows : String := "sql: no rows in result set"

/-- One statement reaches the store and takes the head of the fault schedule. -/
def Db.next (db : Db) : Option String × Db :=
  match db.faults with
  | [] => (none, db)
  | f :: rest => (f, { db with faults := rest })

/-- Scan of a column into a `uint`. -/
def scanUint (v : Nat) : Except String Nat :=
  if v < 2 ^ 64 then .ok v else .error "sql: Scan error: value out of range"

/-- The query `SELECT EXISTS(SELECT 1 FROM users WHERE userid=?)` of
`checkIDConflict`; on an error `collision` keeps its initial value 1. -/
def checkIDConflict (db : Db) (id : Nat) : (Bool × Option String) × Db :=
  match db.next with
  | (some e, db1) => ((true, some e), db1)
  | (none, db1) => ((db1.users.any (fun row => row.userid = id), none), db1)

/-- The loop of `getUniqueID`, at most `fuel` iterations; the result is the
identifier and the count at the exit of the loop. -/
def getUniqueIDLoop : Nat → Db → Nat → Nat → Nat → Option (Except String (Nat × Nat) × Db)
  | 0, _, _, _, _ => none
  | fuel + 1, db, count, scale, addConst =>
    let count1 := toUint (count + 1)
    let newID := toUint (toUint (count1 * scale) + addConst) % 65536
    match checkIDConflict db newID with
    | ((_, some e), db1) => some (.error e, db1)
    | ((conflict, none), db1) =>
      if conflict ∨ newID = 0 then getUniqueIDLoop fuel db1 count1 scale addConst
      else some (.ok (newID, count1), db1)

/-- The query `SELECT count, scale, addConst FROM count WHERE type='users'`
scanned into three `uint`. -/
def queryCount (db : Db) : Except String (Nat × Nat × Nat) × Db :=
  match db.next with
  | (some e, db1) => (.error e, db1)
  | (none, db1) =>
    match db1.count with
    | none => (.error errNoRows, db1)
    | some row =>
      match scanUint row.count, scanUint row.scale, scanUint row.addConst with
      | .ok c, .ok s, .ok a => (.ok (c, s, a), db1)
      | _, _, _ => (.error "sql: Scan error: value out of range", db1)

/-- A call of `db.Db.Prepare`. -/
def prepare (db : Db) : Option String × Db := db.next

/-- Execution of `UPDATE count SET count=? WHERE type='users'`. -/
def execUpdateCount (db : Db) (count : Nat) : Option String × Db :=
  match db.next with
  | (some e, db1) => (some e, db1)
  | (none, db1) =>
    (none, { db1 with count := db1.count.map (fun row => { row with count := count }) })

/-- Returns a unique id for a user: the pair `(uint, error)` of the Go function,
or `none` when the loop has not ended within `fuel` iterations. -/
def getUniqueID (fuel : Nat) (db : Db) : Option ((Nat × Option String) × Db) :=
  match queryCount db with
  | (.error e, db1) => some ((0, some e), db1)
  | (.ok (count, scale, addConst), db1) =>
    match getUniqueIDLoop fuel db1 count scale addConst with
    | none => none
    | some (.error e, db2) => some ((0, some e), db2)
    | some (.ok (newID, count1), db2) =>
      match prepare db2 with
      | (some e, db3) => some ((newID, some e), db3)
      | (none, db3) =>
        match execUpdateCount db3 count1 with
        | (some e, db4) => some ((newID, some e), db4)
        | (none, db4) => some ((newID, none), db4)

/-- The class `[^a-zA-Z0-9_]` of the pattern `BADCHARS`. -/
def BADCHARS (c : Char) : Bool :=
  !((97 ≤ c.toNat ∧ c.toNat ≤ 122) ∨ (65 ≤ c.toNat ∧ c.toNat ≤ 90)
    ∨ (48 ≤ c.toNat ∧ c.toNat ≤ 57) ∨ c = '_')

/-- The call `regexp.MatchString(BADCHARS, user)`: some character of `user` is in
the class.  The pattern is a constant that compiles, so no error arises. -/
def matchBADCHARS (user : String) : Bool := user.data.any BADCHARS

/-- The query `SELECT userid FROM users WHERE name=?` scanned into a `uint`. -/
def queryUserID (db : Db) (user : String) : Except String Nat × Db :=
  match db.next with
  | (some e, db1) => (.error e, db1)
  | (none, db1) =>
    match db1.users.find? (fun row => row.name = user) with
    | none => (.error errNoRows, db1)
    | some row => (scanUint row.userid, db1)

/-- Returns the userid of a user. -/
def GetUserID (db : Db) (user : String) : Except String Nat × Db :=
  if matchBADCHARS user then (.error "Invalid user name", db)
  else queryUserID db user

/-- Execution of `INSERT INTO users (userid, name, salthash) VALUES(?, ?, ?)`. -/
def execAddUser (db : Db) (id : Nat) (user saltHashString : String) : Option String × Db :=
  match db.next with
  | (some e, db1) => (some e, db1)
  | (none, db1) =>
    (none, { db1 with
      users := db1.users ++ [{ userid := id, name := user, salthash := saltHashString }] })

/-- Makes a new user and returns its id; `none` when the loop of `getUniqueID`
has not ended within `fuel` iterations.  As in the source, the hash is
generated from the literal `"password"` and the argument `pass` is not read. -/
def MakeUser (lib : Lib) (fuel : Nat) (db : Db) (user pass : String) :
    Option (Except String Nat × Db) :=
  match GetUserID db user with
  | (found, db1) =>
    let userID : Nat := match found with
      | .ok id => id
      | .error _ => 0
    let err : Option String := match found with
      | .ok _ => none
      | .error e => some e
    if err.isSome ∧ err ≠ some errNoRows then some (.error (err.getD ""), db1)
    else if userID ≠ 0 then some (.error "User already made", db1)
    else
      match getUniqueID fuel db1 with
      | none => none
      | some ((_, some e), db2) => some (.error e, db2)
      | some ((id, none), db2) =>
        match lib.bcryptGenerate "password" with
        | .error e => some (.error e, db2)
        | .ok saltHash =>
          let saltHashString := base64EncodeToString saltHash
          match db2.next with
          | (some e, db3) => some (.error e, db3)
          | (none, db3) =>
            match prepare db3 with
            | (some e, db4) => some (.error e, db4)
            | (none, db4) =>
              match execAddUser db4 id user saltHashString with
              | (some e, db5) => some (.error e, db5)
              | (none, db5) => some (.ok id, db5)

/-- Returns the salthash of a user. -/
def getSaltHash (db : Db) (userID : Nat) : Except String Bytes × Db :=
  match db.next with
  | (some e, db1) => (.error e, db1)
  | (none, db1) =>
    match db1.users.find? (fun row => row.userid = userID) with
    | none => (.error errNoRows, db1)
    | some row => (base64DecodeString row.salthash, db1)

/-- If a successful login, generates a secret or refreshes the existing one.
The assignment `secretMap[userID] = secret` and the `resetExpiration` that
follows it are one update of the table; the returned pointer is the entry. -/
def Login (lib : Lib) (db : Db) (secretMap : SecretMap) (now : Int)
    (entropy : Except String Nat) (user pass : String) :
    Except String (Nat × Secret) × Db × SecretMap :=
  match GetUserID db user with
  | (.error e, db1) => (.error e, db1, secretMap)
  | (.ok userID, db1) =>
    match getSaltHash db1 userID with
    | (.error e, db2) => (.error e, db2, secretMap)
    | (.ok hash, db2) =>
      match lib.bcryptCompare hash pass with
      | .error e => (.error e, db2, secretMap)
      | .ok _ =>
        let current : Except String Secret :=
          match secretMap userID with
          | none => newSecret entropy now
          | some s => if s.Expired now then newSecret entropy now else .ok s
        match current with
        | .error e => (.error e, db2, secretMap)
        | .ok s =>
          let s1 := s.resetExpiration now
          (.ok (userID, s1), db2, Function.update secretMap userID (some s1))

/-- If the user and secret are correct, refreshes the secret. -/
def VerifySecret (db : Db) (secretMap : SecretMap) (now : Int) (user inpSecret : String) :
    Except String (Nat × Secret) × Db × SecretMap :=
  match GetUserID db user with
  | (.error e, db1) => (.error e, db1, secretMap)
  | (.ok userID, db1) =>
    match secretMap userID with
    | none => (.error "No secret found for user", db1, secretMap)
    | some s =>
      if s.Expired now then (.error "Secret has expired", db1, secretMap)
      else if s.String ≠ inpSecret then (.error "Secrets do not match", db1, secretMap)
      else
        let s1 := s.resetExpiration now
        (.ok (userID, s1), db1, Function.update secretMap userID (some s1))

/-! ## Request authentication -/

/-- HMAC-SHA256 of `message` under `key`. -/
def ComputeHmac256 (lib : Lib) (message key : String) : Bytes := lib.hmacSHA256 key message

/-- Reports whether `messageHMAC` is a valid HMAC tag for `message`. -/
def checkMAC (lib : Lib) (key message : String) (messageHMAC : Bytes) : Bool :=
  decide (messageHMAC = ComputeHmac256 lib message key)

/-- A slice of header values; `none` is the nil slice. -/
abbrev Slice := Option (List String)

/-- The fields of `*http.Request` that are read: the header map (`none` for a
key that is not in the map) and `r.URL.String()`. -/
structure Request where
  Header : String → Option Slice
  URL : String

/-- The first `switch` of `parseRequest`: the tag of an `Encoding` value. -/
def encodingTag (lib : Lib) (encoding : String) : String :=
  let lower := ToLower lib.unicodeLower encoding
  if lower = "base64" ∨ lower = "64" then "base64"
  else if lower = "hex" ∨ lower = "hexadecimal" then "hex"
  else if lower = "binary" ∨ lower = "bits" then "binary"
  else if lower = "decimal" then "decimal"
  else encoding

/-- The value of `HMACEncoding` before the second `switch`; indexing an empty
non-nil slice panics. -/
def resolveEncoding (lib : Lib) (r : Request) : GoResult String :=
  match r.Header "Encoding" with
  | some (some (encoding :: _)) => .ok (encodingTag lib encoding)
  | some (some []) => .panic
  | some none => .ok "hex"
  | none => .ok "hex"

/-- The second `switch` of `parseRequest`: decoding under the resolved tag. -/
def decodeHMAC (HMACEncoding messageHMACString : String) : Except String Bytes :=
  if HMACEncoding = "base64" then base64DecodeString messageHMACString
  else if HMACEncoding = "hex" then hexDecodeString messageHMACString
  else .error ("\x27" ++ HMACEncoding ++ "\x27 not a supported encoding")

/-- Returns the message used to generate the HMAC, the time string and the HMAC
of a request. -/
def parseRequest (lib : Lib) (r : Request) : GoResult (String × String × Bytes) :=
  match r.Header "Time-Sent" with
  | none => .err "No Time-Sent header provided"
  | some none => .err "No Time-Sent header provided"
  | some (some []) => .err "No Time-Sent header provided"
  | some (some (time :: _)) =>
    let message := time ++ ":" ++ r.URL
    match r.Header "Hmac" with
    | none => .err "No HMAC header provided"
    | some none => .err "No HMAC header provided"
    | some (some []) => .err "No HMAC header provided"
    | some (some (messageHMACString :: _)) =>
      match resolveEncoding lib r with
      | .panic => .panic
      | .err e => .err e
      | .ok HMACEncoding =>
        match decodeHMAC HMACEncoding messageHMACString with
        | .error e => .err e
        | .ok messageHMAC => .ok (message, time, messageHMAC)

/-- The method `Time.Unix`: whole seconds since the epoch, as an `int64`. -/
def Unix (now : Int) : Int := toInt64 (now / 1000000000)

/-- Verifies whether a request is correctly authorized. -/
def AuthRequest (lib : Lib) (secretMap : SecretMap) (now : Int) (r : Request)
    (userID : Nat) : GoResult Bool :=
  match parseRequest lib r with
  | .panic => .panic
  | .err e => .err e
  | .ok (message, timeString, messageHMAC) =>
    match Atoi timeString with
    | .error _ => .err "Error parsing time (seconds since epoch)"
    | .ok timeInt =>
      let delay := toInt64 (timeInt - Unix now)
      if delay < -30 ∨ delay > 30 then .err "Time difference too large"
      else
        match secretMap userID with
        | none => .err "No secret for that user"
        | some secret =>
          if secret.Expired now then .err "Secret expired"
          else .ok (checkMAC lib secret.String message messageHMAC)

/-! ## Scenarios, specification-side predicates and sample data -/

/-- A library instance for concrete runs: every MAC is empty, the lower-case
table is the identity, the password hash is the list of character codes. -/
def sampleLib : Lib where
  hmacSHA256 := fun _ _ => []
  unicodeLower := fun c => c
  bcryptGenerate := fun password => .ok (password.data.map Char.toNat)
  bcryptCompare := fun hash password =>
    if hash = password.data.map Char.toNat then .ok ()
    else .error "crypto/bcrypt: hashedPassword is not the hash of the given password"

/-- A request with the given `Time-Sent` value, the given `Hmac` value, no `Encoding`
header and URL `/games`. -/
def sampleRequest (timeSent hmac : String) : Request where
  Header := fun key =>
    if key = "Time-Sent" then some (some [timeSent])
    else if key = "Hmac" then some (some [hmac])
    else none
  URL := "/games"

/-- The empty secret table. -/
def noSecrets : SecretMap := fun _ => none

/-- A store with one user, `alice`, whose identifier is 7 and whose stored hash
is the base64 of the character codes of `password`. -/
def sampleDb : Db where
  users := [{ userid := 7, name := "alice", salthash := "cGFzc3dvcmQ=" }]
  count := some { count := 0, scale := 40503, addConst := 12345 }
  faults := []

/-- A secret table whose only entry is user 7, value 5, expiring at instant 100. -/
def sampleSecrets : SecretMap := fun k => if k = 7 then some { value := 5, expiration := 100 } else none

/-- A request with `Time-Sent`, `Hmac` and one `Encoding` value. -/
def sampleRequestEnc (timeSent hmac encoding : String) : Request where
  Header := fun key =>
    if key = "Time-Sent" then some (some [timeSent])
    else if key = "Hmac" then some (some [hmac])
    else if key = "Encoding" then some (some [encoding])
    else none
  URL := "/games"

/-- A character of the class `[A-Za-z0-9_]`. -/
def nameChar (c : Char) : Prop :=
  ('a' ≤ c ∧ c ≤ 'z') ∨ ('A' ≤ c ∧ c ≤ 'Z') ∨ ('0' ≤ c ∧ c ≤ '9') ∨ c = '_'

instance : DecidablePred nameChar := fun c => by
  unfold nameChar
  infer_instance

/-- A store whose only user has the empty name and the identifier 9. -/
def emptyNameDb : Db where
  users := [{ userid := 9, name := "", salthash := "" }]
  count := none
  faults := []

/-- A store whose counter stands at `2^64 - 1`, with scale 1 and constant 1. -/
def wrapDb : Db where
  users := []
  count := some { count := 18446744073709551615, scale := 1, addConst := 1 }
  faults := []

/-- Sequential registrations: `MakeUser` is run for each request (fuel, name,
password) in turn, each on the store left by the one before; the result is the
list of returned identifiers, or `none` as soon as one registration does not
succeed. -/
def registerAll (lib : Lib) : List (Nat × String × String) → Db → Option (List Nat × Db)
  | [], db => some ([], db)
  | (fuel, user, pass) :: rest, db =>
    match MakeUser lib fuel db user pass with
    | some (.ok id, db1) =>
      match registerAll lib rest db1 with
      | some (ids, db2) => some (id :: ids, db2)
      | none => none
    | _ => none

/-- Verifies whether a request is correctly authorized, with the secret table
threaded through the call: the table after the call is returned next to the
result of the Go function.  The body reads `secretMap[userID]` and calls the
methods `Expired` and `String`; it has no assignment to the map or to a field
of a secret. -/
def AuthRequestState (lib : Lib) (secretMap : SecretMap) (now : Int) (r : Request)
    (userID : Nat) : GoResult Bool × SecretMap :=
  match parseRequest lib r with
  | .panic => (.panic, secretMap)
  | .err e => (.err e, secretMap)
  | .ok (message, timeString, messageHMAC) =>
    match Atoi timeString with
    | .error _ => (.err "Error parsing time (seconds since epoch)", secretMap)
    | .ok timeInt =>
      let delay := toInt64 (timeInt - Unix now)
      if delay < -30 ∨ delay > 30 then (.err "Time difference too large", secretMap)
      else
        match secretMap userID with
        | none => (.err "No secret for that user", secretMap)
        | some secret =>
          if secret.Expired now then (.err "Secret expired", secretMap)
          else (.ok (checkMAC lib secret.String message messageHMAC), secretMap)

/-- Lines 171 to 198 of `MakeUser`: the allocation of an identifier and the
insertion of the row, after the name check. -/
def allocateAndInsert (lib : Lib) (fuel : Nat) (db : Db) (user : String) :
    Option (Except String Nat × Db) :=
  match getUniqueID fuel db with
  | none => none
  | some ((_, some e), db2) => some (.error e, db2)
  | some ((id, none), db2) =>
    match lib.bcryptGenerate "password" with
    | .error e => some (.error e, db2)
    | .ok saltHash =>
      let saltHashString := base64EncodeToString saltHash
      match db2.next with
      | (some e, db3) => some (.error e, db3)
      | (none, db3) =>
        match prepare db3 with
        | (some e, db4) => some (.error e, db4)
        | (none, db4) =>
          match execAddUser db4 id user saltHashString with
          | (some e, db5) => some (.error e, db5)
          | (none, db5) => some (.ok id, db5)

/-- The unsigned integer with the given big-endian bytes (`(*big.Int).SetBytes`). -/
def bigEndianValue (bs : Bytes) : Nat := bs.foldl (fun acc b => acc * 256 + b) 0

/-- A store that answers every statement still to come without error. -/
def Db.errorFree (db : Db) : Prop := ∀ f ∈ db.faults, f = none

instance (db : Db) : Decidable db.errorFree := by
  unfold Db.errorFree
  infer_instance

/-- The identifier of a count: `(count * scale + addConst) mod 65536`. -/
def transform (count scale addConst : Nat) : Nat := (count * scale + addConst) % 65536

/-- An identifier that may be issued: nonzero and not assigned to any user. -/
def available (db : Db) (id : Nat) : Prop :=
  id ≠ 0 ∧ db.users.any (fun u => u.userid = id) = false

instance (db : Db) (id : Nat) : Decidable (available db id) := by
  unfold available
  infer_instance

/-- A request whose `Encoding` key is present with an empty, non-nil slice. -/
def emptyEncodingRequest : Request where
  Header := fun key =>
    if key = "Time-Sent" then some (some ["1700000000"])
    else if key = "Hmac" then some (some ["00"])
    else if key = "Encoding" then some (some [])
    else none
  URL := "/games"

/-- A request whose `Encoding` key is present with the nil slice. -/
def nilEncodingRequest : Request where
  Header := fun key =>
    if key = "Time-Sent" then some (some ["1700000000"])
    else if key = "Hmac" then some (some ["00"])
    else if key = "Encoding" then some none
    else none
  URL := "/games"

/-- A secret table whose only entry is user 7, value 5, expired since instant 10. -/
def expiredSecrets : SecretMap :=
  fun k => if k = 7 then some { value := 5, expiration := 10 } else none

/-- A store like `sampleDb` in which the identifier of count 1 is taken. -/
def takenDb : Db where
  users := [{ userid := 52848, name := "bob", salthash := "cGFzc3dvcmQ=" }]
  count := some { count := 0, scale := 40503, addConst := 12345 }
  faults := [none, none]

end Auth

/-! # The move history of a game (`src/game/movehistory.go`) -/

namespace Game

/-- The type `MoveHistory`, an array of 18 `uint`: the list of its entries. -/
abbrev MoveHistory := List Nat

/-- Conversion to `uint64`. -/
def toUint64 (x : Nat) : Nat := x % 2 ^ 64

/-- The inner loop of `Decompress` on word `i`, with `n` iterations to go:
`moveIndex` is the loop variable and `c` the value of `compressed[i]`. -/
def decompressWord (i : Nat) : Nat → Nat → Nat → MoveHistory → MoveHistory
  | 0, _, _, m => m
  | n + 1, moveIndex, c, m =>
    decompressWord i n (moveIndex + 1) (c >>> 7) (m.set (moveIndex + 9 * i) (c &&& 0x7F))

/-- The method `Decompress`: the outer loop runs for `i = 0` on `a` and for
`i = 1` on `b`, the inner loop for `moveIndex = 0, ..., 8`. -/
def Decompress (m : MoveHistory) (a b : Nat) : MoveHistory :=
  decompressWord 1 9 0 b (decompressWord 0 9 0 a m)

/-- The loop of `Compress` with the loop variable at `i = n - 1` (the loop ends
when `i` drops below 0); `j` selects the word of `compressed`. -/
def compressLoop (m : MoveHistory) : Nat → Nat → Nat × Nat → Nat × Nat
  | 0, _, compressed => compressed
  | i + 1, j, compressed =>
    let j1 := if i = 8 then j - 1 else j
    let compressed1 : Nat × Nat :=
      if j1 = 0 then (toUint64 (toUint64 (compressed.1 * 128) + m.getD i 0), compressed.2)
      else (compressed.1, toUint64 (toUint64 (compressed.2 * 128) + m.getD i 0))
    compressLoop m i j1 compressed1

/-- The method `Compress`. -/
def Compress (m : MoveHistory) : Nat × Nat := compressLoop m 18 1 (0, 0)

end Game

namespace Auth

/-! ## Request parsing and authentication: characterisations -/

/-- Success of `parseRequest`, read off the header map. -/
theorem parseRequest_ok_iff (lib : Lib) (r : Request) (m tm : String) (sig : Bytes) :
    parseRequest lib r = .ok (m, tm, sig) ↔
      ∃ ts hm hs enc,
        r.Header "Time-Sent" = some (some (tm :: ts)) ∧
        m = tm ++ ":" ++ r.URL ∧
        r.Header "Hmac" = some (some (hm :: hs)) ∧
        resolveEncoding lib r = .ok enc ∧
        decodeHMAC enc hm = .ok sig := by
  unfold parseRequest
  constructor
  · intro h
    split at h <;> try contradiction
    rename_i tm1 ts hts
    dsimp only at h
    split at h <;> try contradiction
    rename_i hm hs hhm
    split at h <;> try contradiction
    rename_i enc henc
    split at h <;> try contradiction
    rename_i sig1 hsig
    simp only [GoResult.ok.injEq, Prod.mk.injEq] at h
    obtain ⟨h1, h2, h3⟩ := h
    subst h2 h3
    exact ⟨ts, hm, hs, enc, hts, h1.symm, hhm, henc, hsig⟩
  · rintro ⟨ts, hm, hs, enc, hts, hmsg, hhm, henc, hsig⟩
    simp only [hts, hhm, henc, hsig, hmsg]

/-- C1. `AuthRequest` returns `(true, nil)` exactly when the request has a
`Time-Sent` and an `Hmac` header, the `Hmac` value decodes under the resolved
encoding, the `Time-Sent` value parses as a decimal integer whose `int64`
difference to the current Unix time is within 30 seconds, the secret table
holds an unexpired secret for `userID`, and the decoded signature is the
HMAC-SHA256, keyed with the base64 string of that secret, of the `Time-Sent`
value followed by a colon and the request URL. -/
theorem AuthRequest_true_iff (lib : Lib) (secretMap : SecretMap) (now : Int) (r : Request)
    (userID : Nat) :
    AuthRequest lib secretMap now r userID = .ok true ↔
      ∃ time ts hm hs enc sig t secret,
        r.Header "Time-Sent" = some (some (time :: ts)) ∧
        r.Header "Hmac" = some (some (hm :: hs)) ∧
        resolveEncoding lib r = .ok enc ∧
        decodeHMAC enc hm = .ok sig ∧
        Atoi time = .ok t ∧
        (-30 ≤ toInt64 (t - Unix now) ∧ toInt64 (t - Unix now) ≤ 30) ∧
        secretMap userID = some secret ∧
        secret.Expired now = false ∧
        sig = lib.hmacSHA256 secret.Base64 (time ++ ":" ++ r.URL) := by
  unfold AuthRequest
  constructor
  · intro h
    split at h <;> try contradiction
    rename_i m tm sig hp
    obtain ⟨ts, hm, hs, enc, hts, hmsg, hhm, henc, hsig⟩ :=
      (parseRequest_ok_iff lib r m tm sig).1 hp
    split at h <;> try contradiction
    rename_i t ht
    dsimp only at h
    split at h <;> try contradiction
    rename_i hwin
    split at h <;> try contradiction
    rename_i secret hsec
    split at h <;> try contradiction
    rename_i hexp
    simp only [GoResult.ok.injEq, checkMAC, ComputeHmac256, decide_eq_true_eq] at h
    refine ⟨tm, ts, hm, hs, enc, sig, t, secret, hts, hhm, henc, hsig, ht, ?_, hsec, ?_, ?_⟩
    · omega
    · simpa using hexp
    · rw [h, hmsg]; rfl
  · rintro ⟨tm, ts, hm, hs, enc, sig, t, secret, hts, hhm, henc, hsig, ht, hwin, hsec, hexp, hmac⟩
    have hp : parseRequest lib r = .ok (tm ++ ":" ++ r.URL, tm, sig) :=
      (parseRequest_ok_iff lib r _ tm sig).2 ⟨ts, hm, hs, enc, hts, rfl, hhm, henc, hsig⟩
    have hnot : ¬ (toInt64 (t - Unix now) < -30 ∨ toInt64 (t - Unix now) > 30) := by omega
    simp only [hp, ht, hsec, hexp, hnot, if_false, checkMAC, ComputeHmac256, hmac]
    simp [Secret.String]

/-- A run of `AuthRequest` that accepts: user 7 of `sampleSecrets` at instant 50,
with the (empty) MAC of `sampleLib` sent in hex. -/
theorem AuthRequest_accepts_sample :
    AuthRequest sampleLib sampleSecrets 50 (sampleRequest "0" "") 7 = .ok true := by
  rfl

/-! ## The time window of `AuthRequest` -/

/-- A value returned by `Atoi` is an `int64`. -/
theorem Atoi_range {s : String} {t : Int} (h : Atoi s = .ok t) :
    -(2 : Int) ^ 63 ≤ t ∧ t < (2 : Int) ^ 63 := by
  unfold Atoi at h
  dsimp only at h
  split at h
  · contradiction
  · split at h <;> split at h <;>
      first
      | contradiction
      | (injection h with h; rw [← h]; assumption)

/-- The method `Unix` returns an `int64`. -/
theorem Unix_range (now : Int) : -(2 : Int) ^ 63 ≤ Unix now ∧ Unix now < (2 : Int) ^ 63 := by
  unfold Unix toInt64
  norm_num
  omega

/-- For an `int64` time `t` and a Unix clock `u` between `-2^63 + 30` and
`2^63 - 31`, the wrapped difference `int64(t) - u` is outside `[-30, 30]`
exactly when `t` and `u` are more than 30 apart. -/
theorem delay_outside_iff {t u : Int} (ht1 : -(2 : Int) ^ 63 ≤ t) (ht2 : t < (2 : Int) ^ 63)
    (hlo : -(2 : Int) ^ 63 + 30 ≤ u) (hhi : u ≤ (2 : Int) ^ 63 - 31) :
    (toInt64 (t - u) < -30 ∨ toInt64 (t - u) > 30) ↔ |u - t| > 30 := by
  have habs : |u - t| > 30 ↔ (30 < u - t ∨ 30 < -(u - t)) := lt_abs
  rw [habs]
  unfold toInt64
  norm_num at ht1 ht2 hlo hhi ⊢
  omega

/-- The time check of `AuthRequest` for a clock whose Unix time lies between
`-2^63 + 30` and `2^63 - 31`: the call rejects with "Time difference too large"
exactly when the `Time-Sent` value and the clock are more than 30 apart. -/
theorem AuthRequest_timeWindow_of_range (lib : Lib) (secretMap : SecretMap) (now : Int)
    (r : Request) (userID : Nat) (m tm : String) (sig : Bytes) (t : Int)
    (hp : parseRequest lib r = .ok (m, tm, sig)) (ht : Atoi tm = .ok t)
    (hlo : -(2 : Int) ^ 63 + 30 ≤ Unix now) (hhi : Unix now ≤ (2 : Int) ^ 63 - 31) :
    AuthRequest lib secretMap now r userID = .err "Time difference too large" ↔
      |Unix now - t| > 30 := by
  have hwin := delay_outside_iff (Atoi_range ht).1 (Atoi_range ht).2 hlo hhi
  unfold AuthRequest
  simp only [hp, ht]
  by_cases hd : toInt64 (t - Unix now) < -30 ∨ toInt64 (t - Unix now) > 30
  · simp only [hd, if_true, true_iff]
    exact hwin.1 hd
  · simp only [hd, if_false]
    constructor
    · intro h
      split at h
      · exact absurd h (by decide)
      · split at h
        · exact absurd h (by decide)
        · contradiction
    · intro h
      exact absurd (hwin.2 h) hd

/-- The Unix time of a clock reading that fits a signed 64-bit count of
nanoseconds is the number of whole seconds, far from the ends of `int64`. -/
theorem Unix_of_clock {now : Int} (h1 : -(2 : Int) ^ 63 ≤ now) (h2 : now < (2 : Int) ^ 63) :
    Unix now = now / 1000000000 ∧ -9223372037 ≤ Unix now ∧ Unix now ≤ 9223372036 := by
  unfold Unix toInt64
  norm_num at h1 h2 ⊢
  omega

/-- C2. For every request whose headers parse and whose `Time-Sent` value is
the machine integer `t`, and every reading `now` of the clock (a signed 64-bit
count of nanoseconds since the epoch, `now.Unix()` its whole seconds),
`AuthRequest` rejects with "Time difference too large" exactly when
`|now.Unix() - t| > 30`; at `t = now.Unix() + 30` and at `t = now.Unix() - 30`
the request is not rejected by the time check.  This holds for every 64-bit
`t`, also where `int64(t) - now.Unix()` wraps around. -/
theorem AuthRequest_timeWindow (lib : Lib) (secretMap : SecretMap) (now : Int) (r : Request)
    (userID : Nat) (m tm : String) (sig : Bytes) (t : Int)
    (hp : parseRequest lib r = .ok (m, tm, sig)) (ht : Atoi tm = .ok t)
    (hclock : -(2 : Int) ^ 63 ≤ now ∧ now < (2 : Int) ^ 63) :
    (AuthRequest lib secretMap now r userID = .err "Time difference too large" ↔
        |Unix now - t| > 30) ∧
      (t = Unix now + 30 ∨ t = Unix now - 30 →
        AuthRequest lib secretMap now r userID ≠ .err "Time difference too large") := by
  obtain ⟨_, hlo, hhi⟩ := Unix_of_clock hclock.1 hclock.2
  have hiff := AuthRequest_timeWindow_of_range lib secretMap now r userID m tm sig t hp ht
    (by norm_num; omega) (by norm_num; omega)
  refine ⟨hiff, ?_⟩
  intro hb hrej
  have hfar := hiff.1 hrej
  have habs : |Unix now - t| = 30 := by
    rcases hb with hb | hb
    · rw [hb]
      norm_num
    · rw [hb]
      norm_num
  omega

/-- Witness for `AuthRequest_timeWindow`: a request sent 30 seconds ahead of a
clock at 1700000000 s is inside the window. -/
theorem AuthRequest_timeWindow_witness :
    AuthRequest sampleLib noSecrets 1700000000000000000 (sampleRequest "1700000030" "00") 7
        ≠ .err "Time difference too large" :=
  (AuthRequest_timeWindow sampleLib noSecrets 1700000000000000000
    (sampleRequest "1700000030" "00") 7 ("1700000030:/games") "1700000030" [0] 1700000030
    (by rfl) (by rfl) (by decide)).2 (Or.inl (by rfl))

/-! ## `VerifySecret` -/

/-- A successful `VerifySecret` found a live secret with the presented string. -/
theorem VerifySecret_ok_inv {db : Db} {secretMap : SecretMap} {now : Int}
    {user presented : String} {id : Nat} {res : Nat × Secret}
    (hid : (GetUserID db user).1 = .ok id)
    (h : (VerifySecret db secretMap now user presented).1 = .ok res) :
    ∃ s, secretMap id = some s ∧ now ≤ s.expiration ∧ s.Base64 = presented := by
  unfold VerifySecret at h
  rcases hg : GetUserID db user with ⟨r, db1⟩
  rw [hg] at hid h
  simp only at hid
  subst hid
  dsimp only at h
  split at h
  · contradiction
  · rename_i s hs
    split at h
    · contradiction
    · rename_i hexp
      split at h
      · contradiction
      · rename_i hm
        refine ⟨s, hs, ?_, ?_⟩
        · simpa [Secret.Expired] using hexp
        · simpa [Secret.String] using hm

/-- The whole result of `VerifySecret` on a live secret with the presented string. -/
theorem VerifySecret_ok_of {db : Db} {secretMap : SecretMap} {now : Int}
    {user presented : String} {id : Nat} {s : Secret}
    (hid : (GetUserID db user).1 = .ok id) (hs : secretMap id = some s)
    (hle : now ≤ s.expiration) (hm : s.Base64 = presented) :
    VerifySecret db secretMap now user presented =
      (.ok (id, { value := s.value, expiration := now + 30 * Minute }), (GetUserID db user).2,
        Function.update secretMap id
          (some { value := s.value, expiration := now + 30 * Minute })) := by
  unfold VerifySecret
  rcases hg : GetUserID db user with ⟨r, db1⟩
  rw [hg] at hid
  simp only at hid
  subst hid
  have hexp : s.Expired now = false := by simpa [Secret.Expired] using hle
  have hm1 : s.String = presented := hm
  simp [hs, hexp, hm1, Secret.resetExpiration]

/-- A failing `VerifySecret` leaves the secret table as it was. -/
theorem VerifySecret_error_frame {db : Db} {secretMap : SecretMap} {now : Int}
    {user presented e : String}
    (h : (VerifySecret db secretMap now user presented).1 = .error e) :
    (VerifySecret db secretMap now user presented).2.2 = secretMap := by
  unfold VerifySecret at h ⊢
  rcases hg : GetUserID db user with ⟨r, db1⟩
  rw [hg] at h
  cases r with
  | error e1 => rfl
  | ok id =>
    dsimp only at h ⊢
    split
    · rfl
    · rename_i s hs
      rw [hs] at h
      dsimp only at h
      split
      · rfl
      · split
        · rfl
        · rename_i hexp hm
          simp [hexp, hm] at h

/-- C3. For a user name that resolves to `id`, `VerifySecret` succeeds exactly
when the table holds a secret for `id`, the current time is not after its
expiration and its base64 string equals the presented one.  On success the
entry keeps its value and expires at `now + 30` minutes (and is what the call
returns); on failure the secret table is unchanged. -/
theorem VerifySecret_spec (db : Db) (secretMap : SecretMap) (now : Int)
    (user presented : String) (id : Nat) (hid : (GetUserID db user).1 = .ok id) :
    ((∃ res, (VerifySecret db secretMap now user presented).1 = .ok res) ↔
        ∃ s, secretMap id = some s ∧ now ≤ s.expiration ∧ s.Base64 = presented) ∧
      (∀ res, (VerifySecret db secretMap now user presented).1 = .ok res →
        ∃ s, secretMap id = some s ∧
          res = (id, { value := s.value, expiration := now + 30 * Minute }) ∧
          (VerifySecret db secretMap now user presented).2.2 =
            Function.update secretMap id
              (some { value := s.value, expiration := now + 30 * Minute })) ∧
      (∀ e, (VerifySecret db secretMap now user presented).1 = .error e →
        (VerifySecret db secretMap now user presented).2.2 = secretMap) := by
  refine ⟨⟨?_, ?_⟩, ?_, ?_⟩
  · rintro ⟨res, h⟩
    exact VerifySecret_ok_inv hid h
  · rintro ⟨s, hs, hle, hm⟩
    rw [VerifySecret_ok_of hid hs hle hm]
    exact ⟨_, rfl⟩
  · intro res h
    obtain ⟨s, hs, hle, hm⟩ := VerifySecret_ok_inv hid h
    rw [VerifySecret_ok_of hid hs hle hm] at h ⊢
    injection h with h
    exact ⟨s, hs, h.symm, rfl⟩
  · intro e h
    exact VerifySecret_error_frame h

/-- Witness for `VerifySecret_spec`: `alice` resolves to 7 in `sampleDb`. -/
theorem VerifySecret_spec_witness :
    (GetUserID sampleDb "alice").1 = .ok 7 ∧
      ((∃ res, (VerifySecret sampleDb sampleSecrets 50 "alice" "BQ==").1 = .ok res) ↔
        ∃ s, sampleSecrets 7 = some s ∧ (50 : Int) ≤ s.expiration ∧ s.Base64 = "BQ==") :=
  ⟨by rfl, (VerifySecret_spec sampleDb sampleSecrets 50 "alice" "BQ==" 7 (by rfl)).1⟩

/-- C10. Sliding window. When `VerifySecret` succeeds at `t0`, the secret then
expires at `t0 + 30` minutes, strictly after `t0`.  With no refresh in between,
a later `VerifySecret` with the same (correct) string at time `t` succeeds
exactly when `t ≤ t0 + 30` minutes: it succeeds 29 and 30 minutes after `t0` and
fails 31 minutes after `t0`; a success at `t` moves the expiration to `t + 30`
minutes. -/
theorem VerifySecret_sliding (db db1 : Db) (secretMap : SecretMap) (t0 t : Int)
    (user presented : String) (id : Nat) (res0 : Nat × Secret)
    (hid0 : (GetUserID db user).1 = .ok id) (hid1 : (GetUserID db1 user).1 = .ok id)
    (h0 : (VerifySecret db secretMap t0 user presented).1 = .ok res0) :
    res0.2.expiration = t0 + 30 * Minute ∧ t0 < res0.2.expiration ∧
      (VerifySecret db secretMap t0 user presented).2.2 id = some res0.2 ∧
      ((∃ res, (VerifySecret db1 (VerifySecret db secretMap t0 user presented).2.2 t
            user presented).1 = .ok res) ↔ t ≤ t0 + 30 * Minute) ∧
      (∀ res, (VerifySecret db1 (VerifySecret db secretMap t0 user presented).2.2 t
            user presented).1 = .ok res →
          res.2.expiration = t + 30 * Minute ∧
          (VerifySecret db1 (VerifySecret db secretMap t0 user presented).2.2 t
            user presented).2.2 id = some res.2) ∧
      (∃ res, (VerifySecret db1 (VerifySecret db secretMap t0 user presented).2.2
            (t0 + 29 * Minute) user presented).1 = .ok res) ∧
      (∃ res, (VerifySecret db1 (VerifySecret db secretMap t0 user presented).2.2
            (t0 + 30 * Minute) user presented).1 = .ok res) ∧
      (∀ res, (VerifySecret db1 (VerifySecret db secretMap t0 user presented).2.2
            (t0 + 31 * Minute) user presented).1 ≠ .ok res) := by
  obtain ⟨s, hs, hle, hm⟩ := VerifySecret_ok_inv hid0 h0
  rw [VerifySecret_ok_of hid0 hs hle hm] at h0 ⊢
  injection h0 with h0
  subst h0
  have hmin : Minute = 60000000000 := by decide
  have hs1 : Function.update secretMap id
      (some ({ value := s.value, expiration := t0 + 30 * Minute } : Secret)) id
      = some { value := s.value, expiration := t0 + 30 * Minute } := by simp
  have hm1 : Secret.Base64 { value := s.value, expiration := t0 + 30 * Minute } = presented := hm
  have key : ∀ t1 : Int, (∃ res, (VerifySecret db1 (Function.update secretMap id
      (some ({ value := s.value, expiration := t0 + 30 * Minute } : Secret))) t1
        user presented).1 = .ok res) ↔ t1 ≤ t0 + 30 * Minute := by
    intro t1
    constructor
    · rintro ⟨res, h⟩
      obtain ⟨s2, hs2, hle2, _⟩ := VerifySecret_ok_inv hid1 h
      rw [hs1] at hs2
      injection hs2 with hs2
      subst hs2
      exact hle2
    · intro hle2
      rw [VerifySecret_ok_of hid1 hs1 hle2 hm1]
      exact ⟨_, rfl⟩
  refine ⟨rfl, ?_, hs1, key t, ?_, (key _).2 ?_, (key _).2 ?_, ?_⟩
  · show t0 < t0 + 30 * Minute
    omega
  · intro res h
    have hle2 := (key t).1 ⟨res, h⟩
    rw [VerifySecret_ok_of hid1 hs1 hle2 hm1] at h ⊢
    injection h with h
    subst h
    simp
  · omega
  · omega
  · intro res h
    have := (key _).1 ⟨res, h⟩
    omega

/-- Witness for `VerifySecret_sliding`: `alice` verifies at instant 50 in
`sampleDb` with the secret of `sampleSecrets`. -/
theorem VerifySecret_sliding_witness :
    (∃ res, (VerifySecret sampleDb (VerifySecret sampleDb sampleSecrets 50 "alice" "BQ==").2.2
        (50 + 29 * Minute) "alice" "BQ==").1 = .ok res) :=
  (VerifySecret_sliding sampleDb sampleDb sampleSecrets 50 0 "alice" "BQ==" 7
    (7, { value := 5, expiration := 50 + 30 * Minute }) (by rfl) (by rfl) (by rfl)).2.2.2.2.2.1

/-! ## `Login` -/

/-- `Login` after the credential check: the result in terms of the secret that
is current after the expiry test. -/
theorem Login_of_credentials {lib : Lib} {db : Db} {secretMap : SecretMap} {now : Int}
    {entropy : Except String Nat} {user pass : String} {id : Nat} {hash : Bytes}
    (hid : (GetUserID db user).1 = .ok id)
    (hhash : (getSaltHash (GetUserID db user).2 id).1 = .ok hash)
    (hcmp : lib.bcryptCompare hash pass = .ok ()) :
    Login lib db secretMap now entropy user pass =
      match (match secretMap id with
        | none => newSecret entropy now
        | some s => if s.Expired now then newSecret entropy now else .ok s) with
      | .error e => (.error e, (getSaltHash (GetUserID db user).2 id).2, secretMap)
      | .ok s =>
        (.ok (id, s.resetExpiration now), (getSaltHash (GetUserID db user).2 id).2,
          Function.update secretMap id (some (s.resetExpiration now))) := by
  unfold Login
  rcases hg : GetUserID db user with ⟨r, db1⟩
  rw [hg] at hid hhash
  simp only at hid hhash
  subst hid
  rcases hh : getSaltHash db1 id with ⟨r2, db2⟩
  rw [hh] at hhash
  simp only at hhash
  subst hhash
  simp only [hh, hcmp]

/-- C4, as amended. After a `Login` whose credential check succeeds for `id` at
time `now`: if the table held no secret for `id`, or an expired one, and the
random source delivers a value, the entry for `id` is the newly drawn value,
which lies in `[0, 2^512)`, expiring at `now + 30` minutes; if reading the
random source fails there, `Login` returns that error and the table is as
before; otherwise (a live entry) the entry keeps its value and expires at
`now + 30` minutes.  A returned secret is the table entry for `id`, and the
entries of other identifiers are unchanged in every case. -/
theorem Login_secret (lib : Lib) (db : Db) (secretMap : SecretMap) (now : Int)
    (entropy : Except String Nat) (user pass : String) (id : Nat) (hash : Bytes)
    (hid : (GetUserID db user).1 = .ok id)
    (hhash : (getSaltHash (GetUserID db user).2 id).1 = .ok hash)
    (hcmp : lib.bcryptCompare hash pass = .ok ()) :
    ((secretMap id = none ∨ ∃ s, secretMap id = some s ∧ s.expiration < now) →
        ∀ raw, entropy = .ok raw →
          raw % 2 ^ 512 < 2 ^ 512 ∧
          (Login lib db secretMap now entropy user pass).1 =
            .ok (id, { value := raw % 2 ^ 512, expiration := now + 30 * Minute }) ∧
          (Login lib db secretMap now entropy user pass).2.2 id =
            some { value := raw % 2 ^ 512, expiration := now + 30 * Minute }) ∧
      (∀ s, secretMap id = some s → now ≤ s.expiration →
          (Login lib db secretMap now entropy user pass).1 =
            .ok (id, { value := s.value, expiration := now + 30 * Minute }) ∧
          (Login lib db secretMap now entropy user pass).2.2 id =
            some { value := s.value, expiration := now + 30 * Minute }) ∧
      (∀ k, k ≠ id → (Login lib db secretMap now entropy user pass).2.2 k = secretMap k) ∧
      ((secretMap id = none ∨ ∃ s, secretMap id = some s ∧ s.expiration < now) →
        ∀ e, entropy = .error e →
          (Login lib db secretMap now entropy user pass).1 = .error e ∧
          (Login lib db secretMap now entropy user pass).2.2 = secretMap) := by
  rw [Login_of_credentials hid hhash hcmp]
  refine ⟨?_, ?_, ?_, ?_⟩
  · intro hfresh raw hraw
    have hnew : newSecret entropy now =
        .ok { value := raw % 2 ^ 512, expiration := now + 30 * Minute } := by
      subst hraw
      rfl
    refine ⟨Nat.mod_lt _ (Nat.two_pow_pos 512), ?_⟩
    rcases hfresh with hnone | ⟨s, hs, hlt⟩
    · simp [hnone, hnew, Secret.resetExpiration]
    · have hexp : s.Expired now = true := by simpa [Secret.Expired] using hlt
      simp [hs, hexp, hnew, Secret.resetExpiration]
  · intro s hs hle
    have hexp : s.Expired now = false := by simpa [Secret.Expired] using hle
    simp [hs, hexp, Secret.resetExpiration]
  · intro k hk
    split
    · rfl
    · simp [Function.update, hk]
  · intro hfresh e he
    have hnew : newSecret entropy now = .error e := by
      subst he
      rfl
    rcases hfresh with hnone | ⟨s, hs, hlt⟩
    · simp [hnone, hnew]
    · have hexp : s.Expired now = true := by simpa [Secret.Expired] using hlt
      simp [hs, hexp, hnew]

/-- Witness for `Login_secret`: `alice` logs in with the stored password while
her secret of `sampleSecrets` is live. -/
theorem Login_secret_witness :
    (Login sampleLib sampleDb sampleSecrets 50 (.ok 12345) "alice" "password").1 =
        .ok (7, { value := 5, expiration := 50 + 30 * Minute }) ∧
      (Login sampleLib sampleDb sampleSecrets 50 (.ok 12345) "alice" "password").2.2 7 =
        some { value := 5, expiration := 50 + 30 * Minute } :=
  (Login_secret sampleLib sampleDb sampleSecrets 50 (.ok 12345) "alice" "password" 7
    ("password".data.map Char.toNat) (by rfl) (by rfl) (by rfl)).2.1
    { value := 5, expiration := 100 } (by rfl) (by decide)

/-- C4, counterexample. The credential check of `alice` succeeds on `sampleDb`
and the table holds no secret for her identifier 7, but reading the random
source fails: `Login` returns that error and the table still has no entry for
7, so the entry is not a newly drawn value and no secret is returned. -/
theorem Login_draw_fails :
    (GetUserID sampleDb "alice").1 = .ok 7 ∧
      (getSaltHash (GetUserID sampleDb "alice").2 7).1
        = .ok ("password".data.map Char.toNat) ∧
      sampleLib.bcryptCompare ("password".data.map Char.toNat) "password" = .ok () ∧
      noSecrets 7 = none ∧
      (Login sampleLib sampleDb noSecrets 50 (.error "unexpected EOF") "alice" "password").1
        = .error "unexpected EOF" ∧
      (Login sampleLib sampleDb noSecrets 50 (.error "unexpected EOF") "alice" "password").2.2 7
        = none := by
  refine ⟨by rfl, by rfl, by rfl, rfl, by rfl, by rfl⟩

/-! ## The `Encoding` header -/

/-- Lower-casing leaves the tag `base64` as it is. -/
theorem ToLower_base64 (tbl : Char → Char) : ToLower tbl "base64" = "base64" := rfl

/-- Lower-casing leaves the tag `hex` as it is. -/
theorem ToLower_hex (tbl : Char → Char) : ToLower tbl "hex" = "hex" := rfl

/-- Values that lower-case to `base64` or `64` get the tag `base64`. -/
theorem encodingTag_base64 (lib : Lib) (e : String)
    (h : ToLower lib.unicodeLower e = "base64" ∨ ToLower lib.unicodeLower e = "64") :
    encodingTag lib e = "base64" := by
  unfold encodingTag
  simp only [h, if_true]

/-- Values that lower-case to `hex` or `hexadecimal` get the tag `hex`. -/
theorem encodingTag_hex (lib : Lib) (e : String)
    (h : ToLower lib.unicodeLower e = "hex" ∨ ToLower lib.unicodeLower e = "hexadecimal") :
    encodingTag lib e = "hex" := by
  unfold encodingTag
  have hn : ¬ (ToLower lib.unicodeLower e = "base64" ∨ ToLower lib.unicodeLower e = "64") := by
    rcases h with h | h <;> rw [h] <;> decide
  simp only [hn, h, if_true, if_false]

/-- Every other value gets a tag that has no decoder. -/
theorem encodingTag_other (lib : Lib) (e : String)
    (h1 : ¬ (ToLower lib.unicodeLower e = "base64" ∨ ToLower lib.unicodeLower e = "64"))
    (h2 : ¬ (ToLower lib.unicodeLower e = "hex" ∨ ToLower lib.unicodeLower e = "hexadecimal")) :
    encodingTag lib e ≠ "base64" ∧ encodingTag lib e ≠ "hex" := by
  unfold encodingTag
  simp only [h1, h2, if_false]
  split
  · exact ⟨by decide, by decide⟩
  · split
    · exact ⟨by decide, by decide⟩
    · constructor
      · intro he
        exact h1 (Or.inl (by rw [he]; rfl))
      · intro he
        exact h2 (Or.inl (by rw [he]; rfl))

/-- The tag only depends on the lower-cased value, up to tags without decoder. -/
theorem decodeHMAC_encodingTag_congr (lib : Lib) (e1 e2 hm : String)
    (h : ToLower lib.unicodeLower e1 = ToLower lib.unicodeLower e2) :
    decodeHMAC (encodingTag lib e1) hm = decodeHMAC (encodingTag lib e2) hm ∨
      ((∃ msg, decodeHMAC (encodingTag lib e1) hm = .error msg) ∧
        ∃ msg, decodeHMAC (encodingTag lib e2) hm = .error msg) := by
  by_cases h1 : ToLower lib.unicodeLower e1 = "base64" ∨ ToLower lib.unicodeLower e1 = "64"
  · left
    rw [encodingTag_base64 lib e1 h1, encodingTag_base64 lib e2 (h ▸ h1)]
  · by_cases h2 : ToLower lib.unicodeLower e1 = "hex" ∨ ToLower lib.unicodeLower e1 = "hexadecimal"
    · left
      rw [encodingTag_hex lib e1 h2, encodingTag_hex lib e2 (h ▸ h2)]
    · right
      have o1 := encodingTag_other lib e1 h1 h2
      have o2 := encodingTag_other lib e2 (h ▸ h1) (h ▸ h2)
      unfold decodeHMAC
      simp only [o1.1, o1.2, o2.1, o2.2, if_false]
      exact ⟨⟨_, rfl⟩, ⟨_, rfl⟩⟩

/-- With both mandatory headers present, `parseRequest` is the decoding of the
`Hmac` value under the resolved encoding. -/
theorem parseRequest_of_headers {lib : Lib} {r : Request} {tm hm : String} {ts hs : List String}
    (hts : r.Header "Time-Sent" = some (some (tm :: ts)))
    (hhm : r.Header "Hmac" = some (some (hm :: hs))) :
    parseRequest lib r =
      match resolveEncoding lib r with
      | .panic => .panic
      | .err e => .err e
      | .ok enc =>
        match decodeHMAC enc hm with
        | .error e => .err e
        | .ok sig => .ok (tm ++ ":" ++ r.URL, tm, sig) := by
  unfold parseRequest
  simp only [hts, hhm]

/-- C9. With `Time-Sent` and `Hmac` present, `parseRequest` resolves the
encoding from the first `Encoding` value without regard to letter case: no
`Encoding` key means hex; a value that lower-cases to `hex` or `hexadecimal`
means hex; one that lower-cases to `base64` or `64` means standard base64;
every other value, such as `binary`, `bits`, `decimal` and `rot13`, ends in
the not-a-supported-encoding error.  Two requests that only differ in the
letter case of the `Encoding` value both fail or both succeed with the same
result. -/
theorem parseRequest_encoding (lib : Lib) (r : Request) (tm hm : String) (ts hs : List String)
    (hts : r.Header "Time-Sent" = some (some (tm :: ts)))
    (hhm : r.Header "Hmac" = some (some (hm :: hs))) :
    (r.Header "Encoding" = none →
        parseRequest lib r =
          match hexDecodeString hm with
          | .error e => .err e
          | .ok sig => .ok (tm ++ ":" ++ r.URL, tm, sig)) ∧
      (∀ e es, r.Header "Encoding" = some (some (e :: es)) →
        ((ToLower lib.unicodeLower e = "hex" ∨ ToLower lib.unicodeLower e = "hexadecimal") →
          parseRequest lib r =
            match hexDecodeString hm with
            | .error e => .err e
            | .ok sig => .ok (tm ++ ":" ++ r.URL, tm, sig)) ∧
        ((ToLower lib.unicodeLower e = "base64" ∨ ToLower lib.unicodeLower e = "64") →
          parseRequest lib r =
            match base64DecodeString hm with
            | .error e => .err e
            | .ok sig => .ok (tm ++ ":" ++ r.URL, tm, sig)) ∧
        (¬ (ToLower lib.unicodeLower e = "hex" ∨ ToLower lib.unicodeLower e = "hexadecimal"
              ∨ ToLower lib.unicodeLower e = "base64" ∨ ToLower lib.unicodeLower e = "64") →
          parseRequest lib r =
            .err ("\x27" ++ encodingTag lib e ++ "\x27 not a supported encoding")) ∧
        (e = "binary" ∨ e = "bits" →
          parseRequest lib r = .err "\x27binary\x27 not a supported encoding") ∧
        (e = "decimal" →
          parseRequest lib r = .err "\x27decimal\x27 not a supported encoding") ∧
        (e = "rot13" →
          parseRequest lib r = .err "\x27rot13\x27 not a supported encoding") ∧
        (∀ (r2 : Request) (e2 : String) (es2 : List String),
          r2.Header "Time-Sent" = r.Header "Time-Sent" → r2.Header "Hmac" = r.Header "Hmac" →
          r2.URL = r.URL → r2.Header "Encoding" = some (some (e2 :: es2)) →
          ToLower lib.unicodeLower e2 = ToLower lib.unicodeLower e →
          ((parseRequest lib r).isErr = true ∧ (parseRequest lib r2).isErr = true) ∨
            ∃ res, parseRequest lib r = .ok res ∧ parseRequest lib r2 = .ok res)) := by
  refine ⟨?_, ?_⟩
  · intro henc
    rw [parseRequest_of_headers hts hhm]
    simp only [resolveEncoding, henc]
    rfl
  · intro e es henc
    have hres : resolveEncoding lib r = .ok (encodingTag lib e) := by
      simp only [resolveEncoding, henc]
    have hother : ∀ l : String, ¬ (l = "hex" ∨ l = "hexadecimal" ∨ l = "base64" ∨ l = "64") →
        ToLower lib.unicodeLower e = l →
        parseRequest lib r =
          .err ("\x27" ++ encodingTag lib e ++ "\x27 not a supported encoding") := by
      intro l hl hle
      have o := encodingTag_other lib e (by rw [hle]; tauto) (by rw [hle]; tauto)
      rw [parseRequest_of_headers hts hhm, hres]
      simp only [decodeHMAC, o.1, o.2, if_false]
    refine ⟨?_, ?_, ?_, ?_, ?_, ?_, ?_⟩
    · intro h
      rw [parseRequest_of_headers hts hhm, hres, encodingTag_hex lib e h]
      rfl
    · intro h
      rw [parseRequest_of_headers hts hhm, hres, encodingTag_base64 lib e h]
      rfl
    · intro h
      exact hother _ h rfl
    · intro h
      rcases h with h | h <;> subst h
      · rw [hother "binary" (by decide) rfl]; rfl
      · rw [hother "bits" (by decide) rfl]; rfl
    · intro h
      subst h
      rw [hother "decimal" (by decide) rfl]; rfl
    · intro h
      subst h
      rw [hother "rot13" (by decide) rfl]; rfl
    · intro r2 e2 es2 h2ts h2hm h2url h2enc hlow
      have hres2 : resolveEncoding lib r2 = .ok (encodingTag lib e2) := by
        simp only [resolveEncoding, h2enc]
      rw [parseRequest_of_headers hts hhm, hres,
        parseRequest_of_headers (h2ts.trans hts) (h2hm.trans hhm), hres2, h2url]
      dsimp only
      rcases decodeHMAC_encodingTag_congr lib e e2 hm hlow.symm with heq | ⟨⟨m1, hm1⟩, ⟨m2, hm2⟩⟩
      · rw [heq]
        cases decodeHMAC (encodingTag lib e2) hm with
        | error msg => exact Or.inl ⟨rfl, rfl⟩
        | ok sig => exact Or.inr ⟨_, rfl, rfl⟩
      · rw [hm1, hm2]
        exact Or.inl ⟨rfl, rfl⟩

/-- Witness for `parseRequest_encoding`: `Encoding: BASE64` selects the base64
decoder. -/
theorem parseRequest_encoding_witness :
    parseRequest sampleLib (sampleRequestEnc "1700000000" "Zm9v" "BASE64") =
      match base64DecodeString "Zm9v" with
      | .error e => .err e
      | .ok sig => .ok ("1700000000" ++ ":" ++ "/games", "1700000000", sig) :=
  ((parseRequest_encoding sampleLib (sampleRequestEnc "1700000000" "Zm9v" "BASE64")
    "1700000000" "Zm9v" [] [] (by rfl) (by rfl)).2 "BASE64" [] (by rfl)).2.1 (Or.inl (by rfl))

/-! ## Name validation -/

/-- The class of `BADCHARS` is the complement of `[A-Za-z0-9_]`. -/
theorem BADCHARS_iff (c : Char) : BADCHARS c = true ↔ ¬ nameChar c := by
  have ha : ('a' ≤ c ∧ c ≤ 'z') ↔ (97 ≤ c.toNat ∧ c.toNat ≤ 122) := Iff.rfl
  have hA : ('A' ≤ c ∧ c ≤ 'Z') ↔ (65 ≤ c.toNat ∧ c.toNat ≤ 90) := Iff.rfl
  have h0 : ('0' ≤ c ∧ c ≤ '9') ↔ (48 ≤ c.toNat ∧ c.toNat ≤ 57) := Iff.rfl
  unfold BADCHARS nameChar
  rw [ha, hA, h0]
  simp only [Bool.not_eq_true', decide_eq_false_iff_not, not_or, not_and, not_le]

/-- `regexp.MatchString(BADCHARS, user)` is false exactly for the names made of
characters of `[A-Za-z0-9_]` only. -/
theorem matchBADCHARS_false_iff (user : String) :
    matchBADCHARS user = false ↔ ∀ c ∈ user.data, nameChar c := by
  unfold matchBADCHARS
  rw [List.any_eq_false]
  constructor
  · intro h c hc
    by_contra hn
    exact h c hc ((BADCHARS_iff c).2 hn)
  · intro h c hc hb
    exact (BADCHARS_iff c).1 hb (h c hc)

/-- C6, as amended. `GetUserID` goes on to the store lookup exactly for the
names whose characters are all in `[A-Za-z0-9_]`, the empty name included;
every name with a character outside the class is rejected with the
invalid-name error before the store is touched, and so it is by `Login`,
`VerifySecret` and `MakeUser`. -/
theorem GetUserID_validation (db : Db) (user : String) :
    ((∀ c ∈ user.data, nameChar c) → GetUserID db user = queryUserID db user) ∧
      ((∃ c ∈ user.data, ¬ nameChar c) →
        GetUserID db user = (.error "Invalid user name", db) ∧
        (∀ lib secretMap now entropy pass,
          Login lib db secretMap now entropy user pass =
            (.error "Invalid user name", db, secretMap)) ∧
        (∀ secretMap now presented,
          VerifySecret db secretMap now user presented =
            (.error "Invalid user name", db, secretMap)) ∧
        (∀ lib fuel pass,
          MakeUser lib fuel db user pass = some (.error "Invalid user name", db))) := by
  constructor
  · intro h
    have hm := (matchBADCHARS_false_iff user).2 h
    simp [GetUserID, hm]
  · rintro ⟨c, hc, hn⟩
    have hm : matchBADCHARS user = true := by
      by_contra hf
      have hf1 : matchBADCHARS user = false := by simpa using hf
      exact hn ((matchBADCHARS_false_iff user).1 hf1 c hc)
    have hg : GetUserID db user = (.error "Invalid user name", db) := by
      simp [GetUserID, hm]
    refine ⟨hg, ?_, ?_, ?_⟩
    · intro lib secretMap now entropy pass
      simp only [Login, hg]
    · intro secretMap now presented
      simp only [VerifySecret, hg]
    · intro lib fuel pass
      have hne : (some "Invalid user name" : Option String) ≠ some errNoRows := by decide
      simp [MakeUser, hg, hne]

/-- Witness for `GetUserID_validation`: the name `alice` goes to the store, the
name `al ice` does not. -/
theorem GetUserID_validation_witness :
    GetUserID sampleDb "alice" = queryUserID sampleDb "alice" ∧
      GetUserID sampleDb "al ice" = (.error "Invalid user name", sampleDb) :=
  ⟨(GetUserID_validation sampleDb "alice").1 (by decide),
    ((GetUserID_validation sampleDb "al ice").2 ⟨' ', by decide, by decide⟩).1⟩

/-- C6, counterexample. The empty name has no character, so it does not match
`^[A-Za-z0-9_]+$`, yet `GetUserID` does not reject it: the store is queried,
and a row with the empty name is found. -/
theorem GetUserID_accepts_empty :
    "".data = [] ∧
      (∀ db, GetUserID db "" = queryUserID db "") ∧
      (GetUserID sampleDb "").1 = .error "sql: no rows in result set" ∧
      (GetUserID emptyNameDb "").1 = .ok 9 := by
  refine ⟨rfl, fun db => ?_, by rfl, by rfl⟩
  rfl

/-! ## Registration and the stored hash -/

/-- C5, the code at a failing input. `MakeUser` never reads `pass`: the stored
hash is that of the literal `password`.  After `MakeUser("bob", "hunter2")`
succeeds on `sampleDb`, `Login("bob", "hunter2")` fails at the password
comparison and `Login("bob", "password")` succeeds. -/
theorem MakeUser_hashes_literal :
    (∀ lib fuel db user pass,
        MakeUser lib fuel db user pass = MakeUser lib fuel db user "password") ∧
      ∃ db1, MakeUser sampleLib 10 sampleDb "bob" "hunter2" = some (.ok 52848, db1) ∧
        (Login sampleLib db1 noSecrets 50 (.ok 1) "bob" "hunter2").1 =
          .error "crypto/bcrypt: hashedPassword is not the hash of the given password" ∧
        (Login sampleLib db1 noSecrets 50 (.ok 1) "bob" "password").1 =
          .ok (52848, { value := 1, expiration := 50 + 30 * Minute }) := by
  refine ⟨fun _ _ _ _ _ => rfl, _, rfl, ?_, ?_⟩
  · rfl
  · rfl

/-! ## The identifier allocator -/

/-- A statement that only consumes a slot of the fault schedule leaves the tables. -/
theorem Db.next_tables (db : Db) : db.next.2.users = db.users ∧ db.next.2.count = db.count := by
  unfold Db.next
  split <;> exact ⟨rfl, rfl⟩

/-- An existence check that answers: the answer is read from table `users`, the
tables are unchanged. -/
theorem checkIDConflict_answer {db db1 : Db} {id : Nat} {conflict : Bool}
    (h : checkIDConflict db id = ((conflict, none), db1)) :
    conflict = db.users.any (fun row => row.userid = id) ∧
      db1.users = db.users ∧ db1.count = db.count := by
  unfold checkIDConflict at h
  have ht := Db.next_tables db
  rcases hn : db.next with ⟨f, d⟩
  rw [hn] at h ht
  cases f with
  | some e => simp at h
  | none =>
    simp only [Prod.mk.injEq, and_true] at h
    obtain ⟨hc, hd⟩ := h
    subst hd
    simp only at ht
    rw [ht.1] at hc
    exact ⟨hc.symm, ht.1, ht.2⟩

/-- Exit of the allocator loop: after `k ≥ 1` iterations the count is
`(count + k) mod 2^64`, the identifier is the transform of that count, it is
nonzero and the existence check found no user with it. -/
theorem getUniqueIDLoop_exit (fuel : Nat) :
    ∀ (db : Db) (count scale addConst id c : Nat) (db1 : Db),
      getUniqueIDLoop fuel db count scale addConst = some (.ok (id, c), db1) →
      ∃ k, 1 ≤ k ∧ k ≤ fuel ∧ c = (count + k) % 2 ^ 64 ∧
        id = (c * scale + addConst) % 65536 ∧ id ≠ 0 ∧
        db.users.any (fun row => row.userid = id) = false ∧
        db1.users = db.users ∧ db1.count = db.count := by
  induction fuel with
  | zero =>
    intro db count scale addConst id c db1 h
    simp [getUniqueIDLoop] at h
  | succ n ih =>
    intro db count scale addConst id c db1 h
    unfold getUniqueIDLoop at h
    dsimp only at h
    rcases hc : checkIDConflict db
        (toUint (toUint (toUint (count + 1) * scale) + addConst) % 65536) with ⟨⟨conflict, e⟩, d⟩
    rw [hc] at h
    cases e with
    | some e => simp at h
    | none =>
      obtain ⟨hconf, hu, hcn⟩ := checkIDConflict_answer hc
      dsimp only at h
      split at h
      · obtain ⟨k, hk1, hk2, hck, hid, hne, hany, hu1, hc1⟩ := ih _ _ _ _ _ _ _ h
        refine ⟨k + 1, by omega, by omega, ?_, hid, hne, ?_, hu1.trans hu, hc1.trans hcn⟩
        · rw [hck]
          unfold toUint
          norm_num
          omega
        · rw [← hu]
          exact hany
      · rename_i hexit
        simp only [Option.some.injEq, Prod.mk.injEq, Except.ok.injEq] at h
        obtain ⟨⟨hid, hcc⟩, hd⟩ := h
        subst hd
        have hfalse : conflict = false := by
          cases conflict
          · rfl
          · exact absurd (Or.inl rfl) hexit
        have hne : toUint (toUint (toUint (count + 1) * scale) + addConst) % 65536 ≠ 0 :=
          fun h0 => hexit (Or.inr h0)
        refine ⟨1, le_refl 1, by omega, ?_, ?_, ?_, ?_, hu, hcn⟩
        · rw [← hcc]
          rfl
        · rw [← hid, ← hcc]
          generalize toUint (count + 1) * scale = p
          unfold toUint
          norm_num
        · rw [← hid]
          exact hne
        · rw [← hid, ← hconf]
          exact hfalse

/-- A successful scan into a `uint` returns the column value, which fits. -/
theorem scanUint_ok {v w : Nat} (h : scanUint v = .ok w) : v < 2 ^ 64 ∧ w = v := by
  unfold scanUint at h
  split at h
  · rename_i hlt
    injection h with h
    exact ⟨hlt, h.symm⟩
  · contradiction

/-- A counter query that answers: the three values are those of the counter row,
the count is a `uint`, the tables are unchanged. -/
theorem queryCount_answer {db db1 : Db} {c sc a : Nat}
    (h : queryCount db = (.ok (c, sc, a), db1)) :
    db.count = some { count := c, scale := sc, addConst := a } ∧ c < 2 ^ 64 ∧
      db1.users = db.users ∧ db1.count = db.count := by
  unfold queryCount at h
  have ht := Db.next_tables db
  rcases hn : db.next with ⟨f, d⟩
  rw [hn] at h ht
  simp only at ht
  cases f with
  | some e => simp at h
  | none =>
    dsimp only at h
    rw [ht.2] at h
    cases hrow : db.count with
    | none => simp [hrow] at h
    | some row =>
      rw [hrow] at h
      dsimp only at h
      cases h1 : scanUint row.count with
      | error e => simp [h1] at h
      | ok v1 =>
        cases h2 : scanUint row.scale with
        | error e => simp [h1, h2] at h
        | ok v2 =>
          cases h3 : scanUint row.addConst with
          | error e => simp [h1, h2, h3] at h
          | ok v3 =>
            obtain ⟨hlt, hv1⟩ := scanUint_ok h1
            obtain ⟨_, hv2⟩ := scanUint_ok h2
            obtain ⟨_, hv3⟩ := scanUint_ok h3
            simp only [h1, h2, h3, Prod.mk.injEq, Except.ok.injEq] at h
            obtain ⟨⟨hc, hs, ha⟩, hd⟩ := h
            subst hc hs ha hd hv1 hv2 hv3
            exact ⟨rfl, hlt, ht.1, ht.2.trans hrow⟩

/-- An `UPDATE` of the counter that is carried out only rewrites the count. -/
theorem execUpdateCount_done {db db1 : Db} {c : Nat} (h : execUpdateCount db c = (none, db1)) :
    db1.users = db.users ∧
      db1.count = db.count.map (fun row => { row with count := c }) := by
  unfold execUpdateCount at h
  have ht := Db.next_tables db
  rcases hn : db.next with ⟨f, d⟩
  rw [hn] at h ht
  simp only at ht
  cases f with
  | some e => simp at h
  | none =>
    simp only [Prod.mk.injEq, true_and] at h
    subst h
    exact ⟨ht.1, by rw [← ht.2]⟩

/-- Anatomy of an allocation that returns without error. -/
theorem getUniqueID_done {fuel : Nat} {db db1 : Db} {id : Nat}
    (h : getUniqueID fuel db = some ((id, none), db1)) :
    ∃ row k, db.count = some row ∧ row.count < 2 ^ 64 ∧ 1 ≤ k ∧ k ≤ fuel ∧
      db1.count = some (CountRow.mk ((row.count + k) % 2 ^ 64) row.scale row.addConst) ∧
      id = ((row.count + k) % 2 ^ 64 * row.scale + row.addConst) % 65536 ∧ id ≠ 0 ∧
      db.users.any (fun u => u.userid = id) = false ∧ db1.users = db.users := by
  unfold getUniqueID at h
  rcases hq : queryCount db with ⟨q, d1⟩
  rw [hq] at h
  cases q with
  | error e => simp at h
  | ok t =>
    obtain ⟨c, sc, a⟩ := t
    obtain ⟨hrow, hlt, hu1, hc1⟩ := queryCount_answer hq
    dsimp only at h
    rcases hl : getUniqueIDLoop fuel d1 c sc a with _ | ⟨l, d2⟩
    · simp [hl] at h
    · rw [hl] at h
      cases l with
      | error e => simp at h
      | ok t2 =>
        obtain ⟨newID, c1⟩ := t2
        obtain ⟨k, hk1, hk2, hck, hid, hne, hany, hu2, hc2⟩ := getUniqueIDLoop_exit _ _ _ _ _ _ _ _ hl
        dsimp only at h
        have hp := Db.next_tables d2
        unfold prepare at h
        rcases hn : d2.next with ⟨f, d3⟩
        rw [hn] at h hp
        simp only at hp
        cases f with
        | some e => simp at h
        | none =>
          dsimp only at h
          rcases hx : execUpdateCount d3 c1 with ⟨f2, d4⟩
          rw [hx] at h
          cases f2 with
          | some e => simp at h
          | none =>
            obtain ⟨hu4, hc4⟩ := execUpdateCount_done hx
            simp only [Option.some.injEq, Prod.mk.injEq, and_true] at h
            obtain ⟨hidd, hdd⟩ := h
            subst hidd hdd
            refine ⟨_, k, hrow, hlt, hk1, hk2, ?_, ?_, hne, ?_, ?_⟩
            · rw [hc4, hp.2, hc2, hc1, hrow, hck]
              rfl
            · rw [hid, hck]
            · rw [← hu1]
              exact hany
            · rw [hu4, hp.1, hu2, hu1]

/-- C7, as amended. When `getUniqueID` returns an identifier without error from
the stored state `(count0, scale, addConst)`, the count it persists is
`c = (count0 + k) mod 2^64` for the number `k ≥ 1` of loop iterations, so
`c > count0` unless the 64-bit counter wraps; the identifier equals
`(c * scale + addConst) mod 65536`, is nonzero and lies in `[1, 65535]`, and
the existence check reported no user with it. -/
theorem getUniqueID_identifier (fuel : Nat) (db db1 : Db) (id : Nat)
    (h : getUniqueID fuel db = some ((id, none), db1)) :
    ∃ row k, db.count = some row ∧ 1 ≤ k ∧ k ≤ fuel ∧
      db1.count = some (CountRow.mk ((row.count + k) % 2 ^ 64) row.scale row.addConst) ∧
      (row.count + k < 2 ^ 64 → row.count < (row.count + k) % 2 ^ 64) ∧
      id = ((row.count + k) % 2 ^ 64 * row.scale + row.addConst) % 65536 ∧
      1 ≤ id ∧ id ≤ 65535 ∧
      db.users.any (fun u => u.userid = id) = false := by
  obtain ⟨row, k, hrow, hlt, hk1, hk2, hcount, hid, hne, hany, _⟩ := getUniqueID_done h
  refine ⟨row, k, hrow, hk1, hk2, hcount, ?_, hid, ?_, ?_, hany⟩
  · intro hsmall
    rw [Nat.mod_eq_of_lt hsmall]
    omega
  · omega
  · have hmod : id < 65536 := by
      rw [hid]
      exact Nat.mod_lt _ (by decide)
    omega

/-- Witness for `getUniqueID_identifier`: on `sampleDb` the first allocation
returns 52848 and persists the count 1. -/
theorem getUniqueID_identifier_witness :
    ∃ row k, sampleDb.count = some row ∧ 1 ≤ k ∧ k ≤ 10 ∧
      some (CountRow.mk 1 40503 12345) =
        some (CountRow.mk ((row.count + k) % 2 ^ 64) row.scale row.addConst) ∧
      (row.count + k < 2 ^ 64 → row.count < (row.count + k) % 2 ^ 64) ∧
      52848 = ((row.count + k) % 2 ^ 64 * row.scale + row.addConst) % 65536 ∧
      1 ≤ 52848 ∧ 52848 ≤ 65535 ∧
      sampleDb.users.any (fun u => u.userid = 52848) = false :=
  getUniqueID_identifier 10 sampleDb
    { users := sampleDb.users, count := some (CountRow.mk 1 40503 12345), faults := [] }
    52848 (by rfl)

/-- C7, counterexample. From the stored count `2^64 - 1` the allocation returns
identifier 1 without error and persists the count 0, which is not greater than
the stored count: the increment wrapped around. -/
theorem getUniqueID_count_wraps :
    wrapDb.count = some (CountRow.mk 18446744073709551615 1 1) ∧
      getUniqueID 1 wrapDb =
        some ((1, none), { users := [], count := some (CountRow.mk 0 1 1), faults := [] }) ∧
      ¬ (0 > 18446744073709551615) := by
  refine ⟨rfl, by rfl, by decide⟩

/-! ## Sequences of registrations -/

/-- Looking up a name leaves the tables. -/
theorem GetUserID_tables (db : Db) (user : String) :
    (GetUserID db user).2.users = db.users ∧ (GetUserID db user).2.count = db.count := by
  unfold GetUserID queryUserID
  have ht := Db.next_tables db
  rcases hn : db.next with ⟨f, d⟩
  rw [hn] at ht
  simp only at ht
  split
  · exact ⟨rfl, rfl⟩
  · cases f with
    | some e => exact ht
    | none =>
      dsimp only
      split <;> exact ht

/-- An `INSERT` that is carried out appends the row. -/
theorem execAddUser_done {db db1 : Db} {id : Nat} {user hash : String}
    (h : execAddUser db id user hash = (none, db1)) :
    db1.users = db.users ++ [{ userid := id, name := user, salthash := hash }] := by
  unfold execAddUser at h
  have ht := Db.next_tables db
  rcases hn : db.next with ⟨f, d⟩
  rw [hn] at h ht
  simp only at ht
  cases f with
  | some e => simp at h
  | none =>
    simp only [Prod.mk.injEq, true_and] at h
    subst h
    simp only [ht.1]

/-- A successful `MakeUser` returns a nonzero identifier that no user had, and
appends one row with it. -/
theorem MakeUser_done {lib : Lib} {fuel : Nat} {db db1 : Db} {user pass : String} {id : Nat}
    (h : MakeUser lib fuel db user pass = some (.ok id, db1)) :
    db.users.any (fun u => u.userid = id) = false ∧ id ≠ 0 ∧
      ∃ hash, db1.users = db.users ++ [{ userid := id, name := user, salthash := hash }] := by
  unfold MakeUser at h
  have hg := GetUserID_tables db user
  rcases hgu : GetUserID db user with ⟨found, d1⟩
  rw [hgu] at h hg
  simp only at hg
  dsimp only at h
  split at h
  · simp at h
  · split at h
    · simp at h
    · rcases hq : getUniqueID fuel d1 with _ | ⟨⟨nid, e⟩, d2⟩
      · simp [hq] at h
      · rw [hq] at h
        cases e with
        | some e => simp at h
        | none =>
          obtain ⟨row, k, _, _, _, _, _, _, hne, hany, hu2⟩ := getUniqueID_done hq
          dsimp only at h
          split at h
          · simp at h
          · rename_i saltHash _
            have hp1 := Db.next_tables d2
            rcases hn1 : d2.next with ⟨f1, d3⟩
            rw [hn1] at h hp1
            simp only at hp1
            cases f1 with
            | some e => simp at h
            | none =>
              dsimp only at h
              unfold prepare at h
              have hp2 := Db.next_tables d3
              rcases hn2 : d3.next with ⟨f2, d4⟩
              rw [hn2] at h hp2
              simp only at hp2
              cases f2 with
              | some e => simp at h
              | none =>
                dsimp only at h
                rcases hx : execAddUser d4 nid user (base64EncodeToString saltHash) with ⟨f3, d5⟩
                rw [hx] at h
                cases f3 with
                | some e => simp at h
                | none =>
                  have hadd := execAddUser_done hx
                  simp only [Option.some.injEq, Prod.mk.injEq, Except.ok.injEq] at h
                  obtain ⟨hid, hd⟩ := h
                  subst hid hd
                  refine ⟨?_, hne, base64EncodeToString saltHash, ?_⟩
                  · rw [← hg.1]
                    exact hany
                  · rw [hadd, hp2.1, hp1.1, hu2, hg.1]

/-- C8. For every number of sequential successful registrations (each one an
allocation by `getUniqueID` followed by the `INSERT` of `MakeUser`), from every
initial store and counter state, the returned identifiers are pairwise distinct
and none of them was in table `users` at the start. -/
theorem registerAll_distinct (lib : Lib) (reqs : List (Nat × String × String))
    (db db1 : Db) (ids : List Nat) (h : registerAll lib reqs db = some (ids, db1)) :
    ids.length = reqs.length ∧ ids.Nodup ∧ (∀ id ∈ ids, ∀ u ∈ db.users, u.userid ≠ id) := by
  induction reqs generalizing db db1 ids with
  | nil =>
    simp only [registerAll, Option.some.injEq, Prod.mk.injEq] at h
    obtain ⟨hids, _⟩ := h
    subst hids
    simp
  | cons req rest ih =>
    obtain ⟨fuel, user, pass⟩ := req
    unfold registerAll at h
    split at h
    · rename_i id d1 hmk
      obtain ⟨hany, _, hash, husers⟩ := MakeUser_done hmk
      split at h
      · rename_i ids1 d2 hrest
        simp only [Option.some.injEq, Prod.mk.injEq] at h
        obtain ⟨hids, _⟩ := h
        subst hids
        obtain ⟨hlen, hnd, hfresh⟩ := ih _ _ _ hrest
        refine ⟨by simp [hlen], ?_, ?_⟩
        · rw [List.nodup_cons]
          refine ⟨?_, hnd⟩
          intro hmem
          refine hfresh id hmem { userid := id, name := user, salthash := hash } ?_ rfl
          rw [husers]
          simp
        · intro i hi u hu
          rcases List.mem_cons.1 hi with hi | hi
          · rw [hi]
            intro hui
            rw [List.any_eq_false] at hany
            exact hany u hu (by simpa using hui)
          · refine hfresh i hi u ?_
            rw [husers]
            exact List.mem_append_left _ hu
      · contradiction
    · contradiction

/-- Witness for `registerAll_distinct`: two registrations on `sampleDb` return
52848 and 27815. -/
theorem registerAll_distinct_witness :
    ([52848, 27815] : List Nat).length = 2 ∧ ([52848, 27815] : List Nat).Nodup ∧
      (∀ id ∈ ([52848, 27815] : List Nat), ∀ u ∈ sampleDb.users, u.userid ≠ id) :=
  registerAll_distinct sampleLib [(10, "bob", "hunter2"), (10, "carol", "s3cret")] sampleDb
    { users := sampleDb.users ++
        [{ userid := 52848, name := "bob", salthash := "cGFzc3dvcmQ=" },
         { userid := 27815, name := "carol", salthash := "cGFzc3dvcmQ=" }],
      count := some (CountRow.mk 2 40503 12345), faults := [] }
    [52848, 27815] (by rfl)

/-! ## The secret table under `AuthRequest` -/

/-- C13. `AuthRequest` never modifies the secret table: whatever the request,
the identifier and the table, and whether the call returns true, false, an
error or panics, the table after the call is the table before it; in
particular the secret of `userID` keeps its value and its expiration, also
after a successful authentication. -/
theorem AuthRequest_frame (lib : Lib) (secretMap : SecretMap) (now : Int) (r : Request)
    (userID : Nat) :
    (AuthRequestState lib secretMap now r userID).1 = AuthRequest lib secretMap now r userID ∧
      (AuthRequestState lib secretMap now r userID).2 = secretMap ∧
      (∀ s, secretMap userID = some s →
        (AuthRequestState lib secretMap now r userID).2 userID = some s) := by
  have key : (AuthRequestState lib secretMap now r userID).1 =
        AuthRequest lib secretMap now r userID ∧
      (AuthRequestState lib secretMap now r userID).2 = secretMap := by
    unfold AuthRequestState AuthRequest
    cases parseRequest lib r with
    | panic => exact ⟨rfl, rfl⟩
    | err e => exact ⟨rfl, rfl⟩
    | ok t =>
      obtain ⟨m, tm, sig⟩ := t
      dsimp only
      cases Atoi tm with
      | error e => exact ⟨rfl, rfl⟩
      | ok t =>
        dsimp only
        split
        · exact ⟨rfl, rfl⟩
        · cases secretMap userID with
          | none => exact ⟨rfl, rfl⟩
          | some s =>
            dsimp only
            split <;> exact ⟨rfl, rfl⟩
  refine ⟨key.1, key.2, ?_⟩
  intro s hs
  rw [key.2]
  exact hs

/-! ## What a failed authentication tells the caller -/

/-- C12, as amended. For a request that passes header parsing and the time
window, `AuthRequest` answers "No secret for that user" when the identifier
has no secret, "Secret expired" when its secret is expired, and `(false, nil)`
when the secret is live and the HMAC does not match; for a name that resolves
to `id`, `VerifySecret` fails with "No secret found for user", "Secret has
expired" and "Secrets do not match" in the three cases. -/
theorem failure_results (lib : Lib) (db : Db) (secretMap : SecretMap) (now : Int) (r : Request)
    (userID : Nat) (m tm : String) (sig : Bytes) (t : Int) (user presented : String) (id : Nat)
    (hp : parseRequest lib r = .ok (m, tm, sig)) (ht : Atoi tm = .ok t)
    (hwin : -30 ≤ toInt64 (t - Unix now) ∧ toInt64 (t - Unix now) ≤ 30)
    (hid : (GetUserID db user).1 = .ok id) :
    (secretMap userID = none →
        AuthRequest lib secretMap now r userID = .err "No secret for that user") ∧
      (∀ s, secretMap userID = some s → s.expiration < now →
        AuthRequest lib secretMap now r userID = .err "Secret expired") ∧
      (∀ s, secretMap userID = some s → now ≤ s.expiration →
        sig ≠ lib.hmacSHA256 s.Base64 m →
        AuthRequest lib secretMap now r userID = .ok false) ∧
      (secretMap id = none →
        (VerifySecret db secretMap now user presented).1 = .error "No secret found for user") ∧
      (∀ s, secretMap id = some s → s.expiration < now →
        (VerifySecret db secretMap now user presented).1 = .error "Secret has expired") ∧
      (∀ s, secretMap id = some s → now ≤ s.expiration → s.Base64 ≠ presented →
        (VerifySecret db secretMap now user presented).1 = .error "Secrets do not match") := by
  have hnot : ¬ (toInt64 (t - Unix now) < -30 ∨ toInt64 (t - Unix now) > 30) := by omega
  have hv : ∀ res : Except String Nat × Db, res = GetUserID db user → res.1 = .ok id →
      VerifySecret db secretMap now user presented =
        match secretMap id with
        | none => (.error "No secret found for user", res.2, secretMap)
        | some s =>
          if s.Expired now then (.error "Secret has expired", res.2, secretMap)
          else if s.String ≠ presented then (.error "Secrets do not match", res.2, secretMap)
          else (.ok (id, s.resetExpiration now), res.2,
            Function.update secretMap id (some (s.resetExpiration now))) := by
    rintro ⟨g, d⟩ hg hgid
    simp only at hgid
    subst hgid
    unfold VerifySecret
    simp only [← hg]
  have hv1 := hv _ rfl hid
  refine ⟨?_, ?_, ?_, ?_, ?_, ?_⟩
  · intro hs
    unfold AuthRequest
    simp only [hp, ht, hnot, if_false, hs]
  · intro s hs hlt
    have hexp : s.Expired now = true := by simpa [Secret.Expired] using hlt
    unfold AuthRequest
    simp only [hp, ht, hnot, if_false, hs, hexp, if_true]
  · intro s hs hle hsig
    have hexp : s.Expired now = false := by simpa [Secret.Expired] using hle
    unfold AuthRequest
    simp only [hp, ht, hnot, if_false, hs, hexp, Bool.false_eq_true, checkMAC, ComputeHmac256,
      Secret.String]
    simp [hsig]
  · intro hs
    rw [hv1, hs]
  · intro s hs hlt
    have hexp : s.Expired now = true := by simpa [Secret.Expired] using hlt
    rw [hv1, hs]
    simp only [hexp, if_true]
  · intro s hs hle hne
    have hexp : s.Expired now = false := by simpa [Secret.Expired] using hle
    have hne1 : s.String ≠ presented := hne
    rw [hv1, hs]
    simp only [hexp, Bool.false_eq_true, if_false, hne1, ne_eq, not_false_eq_true, if_true]

/-- Witness for `failure_results`: user 7 without a secret. -/
theorem failure_results_witness :
    AuthRequest sampleLib noSecrets 50 (sampleRequest "0" "") 7 = .err "No secret for that user" :=
  (failure_results sampleLib sampleDb noSecrets 50 (sampleRequest "0" "") 7 "0:/games" "0" [] 0
    "alice" "BQ==" 7 (by rfl) (by rfl) (by decide) (by rfl)).1 (by rfl)

/-- C12, counterexample. A caller can tell the three failures apart: on the same
request `AuthRequest` returns three different results for a missing secret, an
expired secret and a live secret with another HMAC, and `VerifySecret` returns
three different errors. -/
theorem failures_distinguishable :
    AuthRequest sampleLib noSecrets 50 (sampleRequest "0" "00") 7
        = .err "No secret for that user" ∧
      AuthRequest sampleLib expiredSecrets 50 (sampleRequest "0" "00") 7
        = .err "Secret expired" ∧
      AuthRequest sampleLib sampleSecrets 50 (sampleRequest "0" "00") 7 = .ok false ∧
      AuthRequest sampleLib noSecrets 50 (sampleRequest "0" "00") 7 ≠
        AuthRequest sampleLib expiredSecrets 50 (sampleRequest "0" "00") 7 ∧
      AuthRequest sampleLib expiredSecrets 50 (sampleRequest "0" "00") 7 ≠
        AuthRequest sampleLib sampleSecrets 50 (sampleRequest "0" "00") 7 ∧
      (VerifySecret sampleDb noSecrets 50 "alice" "AA==").1
        = .error "No secret found for user" ∧
      (VerifySecret sampleDb expiredSecrets 50 "alice" "AA==").1
        = .error "Secret has expired" ∧
      (VerifySecret sampleDb sampleSecrets 50 "alice" "AA==").1
        = .error "Secrets do not match" := by
  have h1 : AuthRequest sampleLib noSecrets 50 (sampleRequest "0" "00") 7
      = .err "No secret for that user" := by rfl
  have h2 : AuthRequest sampleLib expiredSecrets 50 (sampleRequest "0" "00") 7
      = .err "Secret expired" := by rfl
  have h3 : AuthRequest sampleLib sampleSecrets 50 (sampleRequest "0" "00") 7 = .ok false := by
    rfl
  refine ⟨h1, h2, h3, ?_, ?_, by rfl, by rfl, by rfl⟩
  · rw [h1, h2]
    decide
  · rw [h2, h3]
    decide

/-! ## Totality of `parseRequest` -/

/-- C18, the code at a failing input. With `Time-Sent` and `Hmac` present and
the `Encoding` key mapped to an empty, non-nil slice, `parseRequest` indexes
position 0 of the empty slice and panics, and so does `AuthRequest`; with the
nil slice the same request is decoded as hex. -/
theorem parseRequest_empty_Encoding_panics :
    (∀ lib, parseRequest lib emptyEncodingRequest = .panic) ∧
      (∀ lib, (parseRequest lib emptyEncodingRequest).returned = false) ∧
      (∀ lib secretMap now userID,
        AuthRequest lib secretMap now emptyEncodingRequest userID = .panic) ∧
      (∀ lib, parseRequest lib nilEncodingRequest =
        .ok ("1700000000:/games", "1700000000", [0])) := by
  refine ⟨fun lib => rfl, fun lib => rfl, fun lib secretMap now userID => rfl, fun lib => rfl⟩

/-! ## The name check of `MakeUser` -/

/-- C14. When the store maps the name to a nonzero identifier, `MakeUser` fails
with "User already made" and nothing is allocated or inserted: the counter row
and table `users` are as before.  When the lookup reports no row, `MakeUser`
does not return that error but goes on with the allocation and the insertion. -/
theorem MakeUser_name_check (lib : Lib) (fuel : Nat) (db : Db) (user pass : String) :
    (∀ id, (GetUserID db user).1 = .ok id → id ≠ 0 →
        MakeUser lib fuel db user pass =
          some (.error "User already made", (GetUserID db user).2) ∧
        (GetUserID db user).2.users = db.users ∧ (GetUserID db user).2.count = db.count) ∧
      ((GetUserID db user).1 = .error errNoRows →
        MakeUser lib fuel db user pass = allocateAndInsert lib fuel (GetUserID db user).2 user) := by
  have ht := GetUserID_tables db user
  constructor
  · intro id hid hne
    refine ⟨?_, ht.1, ht.2⟩
    unfold MakeUser
    rcases hg : GetUserID db user with ⟨found, d1⟩
    rw [hg] at hid
    simp only at hid
    subst hid
    simp [hne]
  · intro herr
    unfold MakeUser allocateAndInsert
    rcases hg : GetUserID db user with ⟨found, d1⟩
    rw [hg] at herr
    simp only at herr
    subst herr
    simp

/-- Witness for `MakeUser_name_check`: `alice` is user 7 of `sampleDb`. -/
theorem MakeUser_name_check_witness :
    MakeUser sampleLib 10 sampleDb "alice" "hunter2" =
      some (.error "User already made", (GetUserID sampleDb "alice").2) ∧
      MakeUser sampleLib 10 sampleDb "bob" "hunter2" =
        allocateAndInsert sampleLib 10 (GetUserID sampleDb "bob").2 "bob" :=
  ⟨((MakeUser_name_check sampleLib 10 sampleDb "alice" "hunter2").1 7 (by rfl) (by decide)).1,
    (MakeUser_name_check sampleLib 10 sampleDb "bob" "hunter2").2 (by rfl)⟩

/-! ## Repeated logins -/

/-- A successful `Login` passed the credential check for the identifier it returns. -/
theorem Login_ok_inv {lib : Lib} {db : Db} {secretMap : SecretMap} {now : Int}
    {entropy : Except String Nat} {user pass : String} {id : Nat} {s : Secret}
    (h : (Login lib db secretMap now entropy user pass).1 = .ok (id, s)) :
    ∃ hash, (GetUserID db user).1 = .ok id ∧
      (getSaltHash (GetUserID db user).2 id).1 = .ok hash ∧
      lib.bcryptCompare hash pass = .ok () := by
  unfold Login at h
  rcases hg : GetUserID db user with ⟨found, d1⟩
  rw [hg] at h
  cases found with
  | error e => simp at h
  | ok uid =>
    dsimp only at h ⊢
    rcases hh : getSaltHash d1 uid with ⟨hres, d2⟩
    rw [hh] at h
    cases hres with
    | error e => simp at h
    | ok hash =>
      dsimp only at h
      cases hc : lib.bcryptCompare hash pass with
      | error e => simp [hc] at h
      | ok u =>
        rw [hc] at h
        dsimp only at h
        split at h
        · simp at h
        · simp only [Except.ok.injEq, Prod.mk.injEq] at h
          obtain ⟨hid, _⟩ := h
          subst hid
          exact ⟨hash, rfl, by rw [hh], hc⟩

/-- The secret returned by a successful `Login` is the new table entry, it
expires 30 minutes after the login, and it keeps the value of a live entry. -/
theorem Login_ok_entry {lib : Lib} {db : Db} {secretMap : SecretMap} {now : Int}
    {entropy : Except String Nat} {user pass : String} {id : Nat} {s : Secret}
    (h : (Login lib db secretMap now entropy user pass).1 = .ok (id, s)) :
    (Login lib db secretMap now entropy user pass).2.2 id = some s ∧
      s.expiration = now + 30 * Minute ∧
      (∀ s0, secretMap id = some s0 → now ≤ s0.expiration → s.value = s0.value) := by
  obtain ⟨hash, hid, hhash, hcmp⟩ := Login_ok_inv h
  rw [Login_of_credentials hid hhash hcmp] at h ⊢
  split at h
  · simp at h
  · rename_i cur hcur
    simp only [Except.ok.injEq, Prod.mk.injEq, true_and] at h
    subst h
    refine ⟨by simp, rfl, ?_⟩
    intro s0 hs0 hle
    have hexp : s0.Expired now = false := by simpa [Secret.Expired] using hle
    rw [hs0] at hcur
    simp only [hexp, Bool.false_eq_true, if_false, Except.ok.injEq] at hcur
    rw [← hcur]
    rfl

/-- C11. Two successful logins of the same principal at times `t1 ≤ t2`, the
second one not after the expiration set by the first and on the table left by
the first, return secrets with the same value, hence the same base64 string,
and the second expiration is not before the first. -/
theorem Login_idempotent (lib : Lib) (db1 db2 : Db) (secretMap : SecretMap) (t1 t2 : Int)
    (entropy1 entropy2 : Except String Nat) (user pass1 pass2 : String) (id : Nat)
    (s1 s2 : Secret)
    (h1 : (Login lib db1 secretMap t1 entropy1 user pass1).1 = .ok (id, s1))
    (h2 : (Login lib db2 (Login lib db1 secretMap t1 entropy1 user pass1).2.2 t2 entropy2
      user pass2).1 = .ok (id, s2))
    (hclock : t1 ≤ t2) (hlive : t2 ≤ s1.expiration) :
    s2.value = s1.value ∧ s2.Base64 = s1.Base64 ∧ s1.expiration ≤ s2.expiration := by
  obtain ⟨hentry, hexp1, _⟩ := Login_ok_entry h1
  obtain ⟨_, hexp2, hkeep⟩ := Login_ok_entry h2
  have hv : s2.value = s1.value := hkeep s1 hentry hlive
  refine ⟨hv, ?_, ?_⟩
  · unfold Secret.Base64 Secret.Bytes
    rw [hv]
  · rw [hexp1, hexp2]
    omega

/-- Witness for `Login_idempotent`: `alice` logs in at instants 50 and 60. -/
theorem Login_idempotent_witness :
    (5 : Nat) = 5 ∧
      Secret.Base64 { value := 5, expiration := 60 + 30 * Minute } =
        Secret.Base64 { value := 5, expiration := 50 + 30 * Minute } ∧
      (50 + 30 * Minute : Int) ≤ 60 + 30 * Minute :=
  Login_idempotent sampleLib sampleDb sampleDb sampleSecrets 50 60 (.ok 1) (.ok 2) "alice"
    "password" "password" 7 { value := 5, expiration := 50 + 30 * Minute }
    { value := 5, expiration := 60 + 30 * Minute } (by rfl) (by rfl) (by decide) (by decide)

/-! ## The allocator on a store that answers -/

/-- On a store that answers, a statement finds no failure and the store still answers. -/
theorem Db.errorFree_next {db : Db} (h : db.errorFree) :
    db.next.1 = none ∧ db.next.2.errorFree := by
  unfold Db.next
  split
  · exact ⟨rfl, h⟩
  · rename_i f rest hf
    unfold Db.errorFree at h ⊢
    rw [hf] at h
    exact ⟨h f (by simp), fun g hg => h g (by simp [hg])⟩

/-- Availability of an identifier only depends on table `users`. -/
theorem available_congr {db db1 : Db} (h : db1.users = db.users) (id : Nat) :
    available db1 id ↔ available db id := by
  unfold available
  rw [h]

/-- The identifier only depends on the count modulo 65536. -/
theorem transform_congr {c1 c2 : Nat} (scale addConst : Nat) (h : c1 % 65536 = c2 % 65536) :
    transform c1 scale addConst = transform c2 scale addConst := by
  unfold transform
  have h1 : c1 ≡ c2 [MOD 65536] := h
  exact (h1.mul_right scale).add_right addConst

/-- The identifier computed by the loop body, with the wrapping `uint`
operations, is the transform of the incremented count. -/
theorem loop_newID (c scale addConst : Nat) :
    toUint (toUint (toUint c * scale) + addConst) % 65536 = transform c scale addConst := by
  unfold toUint transform
  have hd : 65536 ∣ 2 ^ 64 := ⟨2 ^ 48, by norm_num⟩
  have h1 : c % 2 ^ 64 ≡ c [MOD 65536] := (Nat.mod_modEq c (2 ^ 64)).of_dvd hd
  have h2 : c % 2 ^ 64 * scale % 2 ^ 64 ≡ c * scale [MOD 65536] :=
    ((Nat.mod_modEq _ (2 ^ 64)).of_dvd hd).trans (h1.mul_right scale)
  have h3 : (c % 2 ^ 64 * scale % 2 ^ 64 + addConst) % 2 ^ 64 ≡ c * scale + addConst [MOD 65536] :=
    ((Nat.mod_modEq _ (2 ^ 64)).of_dvd hd).trans (h2.add_right addConst)
  exact h3

/-- Wrapping the count modulo `2^64` does not change the identifiers that follow. -/
theorem transform_wrap (c j scale addConst : Nat) :
    transform (c % 2 ^ 64 + j) scale addConst = transform (c + j) scale addConst := by
  apply transform_congr
  have hd : 65536 ∣ 2 ^ 64 := ⟨2 ^ 48, by norm_num⟩
  have h1 : c % 2 ^ 64 ≡ c [MOD 65536] := (Nat.mod_modEq c (2 ^ 64)).of_dvd hd
  exact h1.add_right j

/-- On a store that answers, the existence check reports what table `users` holds. -/
theorem checkIDConflict_errorFree {db : Db} (h : db.errorFree) (id : Nat) :
    checkIDConflict db id = ((db.users.any (fun row => row.userid = id), none), db.next.2) := by
  obtain ⟨h1, _⟩ := Db.errorFree_next h
  have ht := Db.next_tables db
  unfold checkIDConflict
  rcases hn : db.next with ⟨f, d⟩
  rw [hn] at h1 ht
  simp only at h1 ht
  subst h1
  simp only [ht.1]

/-- On a store that answers, the loop leaves at the first count whose identifier
is available: after `k` iterations when the identifiers of the `k - 1` counts
before are not available. -/
theorem getUniqueIDLoop_least (scale addConst : Nat) :
    ∀ (k fuel : Nat) (db : Db) (count : Nat), db.errorFree → 1 ≤ k → k ≤ fuel →
      available db (transform (count + k) scale addConst) →
      (∀ j, 1 ≤ j → j < k → ¬ available db (transform (count + j) scale addConst)) →
      ∃ db1, getUniqueIDLoop fuel db count scale addConst =
          some (.ok (transform (count + k) scale addConst, (count + k) % 2 ^ 64), db1) ∧
        db1.users = db.users ∧ db1.count = db.count ∧ db1.errorFree := by
  intro k
  induction k with
  | zero =>
    intro fuel db count _ hk
    omega
  | succ k ih =>
    intro fuel db count hfree _ hfuel hav hleast
    obtain ⟨fuel1, rfl⟩ : ∃ n, fuel = n + 1 := ⟨fuel - 1, by omega⟩
    obtain ⟨_, hfree1⟩ := Db.errorFree_next hfree
    have ht := Db.next_tables db
    unfold getUniqueIDLoop
    dsimp only
    rw [loop_newID, checkIDConflict_errorFree hfree]
    dsimp only
    have hcount : toUint (count + 1) = (count + 1) % 2 ^ 64 := rfl
    by_cases hk : k = 0
    · subst hk
      have hexit : ¬ ((db.users.any fun row => decide (row.userid =
          transform (count + 1) scale addConst)) = true ∨
          transform (count + 1) scale addConst = 0) := by
        unfold available at hav
        rintro (h | h)
        · simp only [Nat.zero_add] at hav
          rw [hav.2] at h
          exact absurd h (by decide)
        · exact hav.1 h
      rw [if_neg hexit]
      exact ⟨db.next.2, rfl, ht.1, ht.2, hfree1⟩
    · have hnot : ¬ available db (transform (count + 1) scale addConst) :=
        hleast 1 (le_refl 1) (by omega)
      have hloop : (db.users.any fun row => decide (row.userid =
          transform (count + 1) scale addConst)) = true ∨
          transform (count + 1) scale addConst = 0 := by
        unfold available at hnot
        by_contra hcon
        rw [not_or] at hcon
        exact hnot ⟨hcon.2, by simpa using hcon.1⟩
      rw [if_pos hloop]
      have hshift : ∀ j, transform (toUint (count + 1) + j) scale addConst
          = transform (count + (j + 1)) scale addConst := by
        intro j
        rw [hcount, transform_wrap]
        congr 1
        omega
      obtain ⟨db1, hres, hu, hc, hf⟩ := ih fuel1 db.next.2 (toUint (count + 1)) hfree1
        (by omega) (by omega)
        (by rw [hshift, available_congr ht.1]; exact hav)
        (by
          intro j hj1 hj2
          rw [hshift, available_congr ht.1]
          exact hleast (j + 1) (by omega) (by omega))
      refine ⟨db1, ?_, hu.trans ht.1, hc.trans ht.2, hf⟩
      rw [hres, hshift]
      have : (toUint (count + 1) + k) % 2 ^ 64 = (count + (k + 1)) % 2 ^ 64 := by
        rw [hcount]
        norm_num
        omega
      rw [this]

/-- On a store that answers, the counter query returns the counter row. -/
theorem queryCount_errorFree {db : Db} {row : CountRow} (h : db.errorFree)
    (hrow : db.count = some row) (hc : row.count < 2 ^ 64) (hs : row.scale < 2 ^ 64)
    (ha : row.addConst < 2 ^ 64) :
    queryCount db = (.ok (row.count, row.scale, row.addConst), db.next.2) := by
  obtain ⟨h1, _⟩ := Db.errorFree_next h
  have ht := Db.next_tables db
  unfold queryCount
  rcases hn : db.next with ⟨f, d⟩
  rw [hn] at h1 ht
  simp only at h1 ht
  subst h1
  simp only [ht.2, hrow, scanUint, hc, hs, ha, if_true]

/-- On a store that answers, the allocation returns the identifier of the first
count after the stored one whose identifier is available, and persists that
count modulo `2^64`. -/
theorem getUniqueID_of_least {db : Db} {row : CountRow} {k fuel : Nat} (hfree : db.errorFree)
    (hrow : db.count = some row) (hc : row.count < 2 ^ 64) (hs : row.scale < 2 ^ 64)
    (ha : row.addConst < 2 ^ 64) (hk : 1 ≤ k) (hfuel : k ≤ fuel)
    (hav : available db (transform (row.count + k) row.scale row.addConst))
    (hleast : ∀ j, 1 ≤ j → j < k →
      ¬ available db (transform (row.count + j) row.scale row.addConst)) :
    ∃ db1, getUniqueID fuel db =
        some ((transform (row.count + k) row.scale row.addConst, none), db1) ∧
      db1.users = db.users ∧
      db1.count = some (CountRow.mk ((row.count + k) % 2 ^ 64) row.scale row.addConst) := by
  obtain ⟨_, hfree1⟩ := Db.errorFree_next hfree
  have ht := Db.next_tables db
  obtain ⟨d2, hloop, hu2, hc2, hfree2⟩ := getUniqueIDLoop_least row.scale row.addConst k fuel
    db.next.2 row.count hfree1 hk hfuel
    (by rw [available_congr ht.1]; exact hav)
    (by
      intro j hj1 hj2
      rw [available_congr ht.1]
      exact hleast j hj1 hj2)
  obtain ⟨hn3, hfree3⟩ := Db.errorFree_next hfree2
  have ht3 := Db.next_tables d2
  obtain ⟨hn4, _⟩ := Db.errorFree_next hfree3
  have hprep : prepare d2 = (none, d2.next.2) := by
    unfold prepare
    rw [← hn3]
  have hexec : ∃ d4, execUpdateCount d2.next.2 ((row.count + k) % 2 ^ 64) = (none, d4) := by
    unfold execUpdateCount
    rcases hn : d2.next.2.next with ⟨f, d⟩
    rw [hn] at hn4
    simp only at hn4
    subst hn4
    exact ⟨_, rfl⟩
  obtain ⟨d4, hx⟩ := hexec
  obtain ⟨hu4, hc4⟩ := execUpdateCount_done hx
  refine ⟨d4, ?_, ?_, ?_⟩
  · unfold getUniqueID
    rw [queryCount_errorFree hfree hrow hc hs ha]
    dsimp only
    rw [hloop]
    dsimp only
    rw [hprep]
    dsimp only
    rw [hx]
  · rw [hu4, ht3.1, hu2, ht.1]
  · rw [hc4, ht3.2, hc2, ht.2, hrow]
    rfl

/-- On a store that answers, the loop is still running after `fuel` iterations
when none of the first `fuel` counts has an available identifier. -/
theorem getUniqueIDLoop_running (scale addConst : Nat) :
    ∀ (fuel : Nat) (db : Db) (count : Nat), db.errorFree →
      (∀ j, 1 ≤ j → j ≤ fuel → ¬ available db (transform (count + j) scale addConst)) →
      getUniqueIDLoop fuel db count scale addConst = none := by
  intro fuel
  induction fuel with
  | zero =>
    intro db count _ _
    rfl
  | succ n ih =>
    intro db count hfree hnone
    obtain ⟨_, hfree1⟩ := Db.errorFree_next hfree
    have ht := Db.next_tables db
    unfold getUniqueIDLoop
    dsimp only
    rw [loop_newID, checkIDConflict_errorFree hfree]
    dsimp only
    have hnot : ¬ available db (transform (count + 1) scale addConst) :=
      hnone 1 (le_refl 1) (by omega)
    have hloop : (db.users.any fun row => decide (row.userid =
        transform (count + 1) scale addConst)) = true ∨
        transform (count + 1) scale addConst = 0 := by
      unfold available at hnot
      by_contra hcon
      rw [not_or] at hcon
      exact hnot ⟨hcon.2, by simpa using hcon.1⟩
    rw [if_pos hloop]
    apply ih _ _ hfree1
    intro j hj1 hj2
    have hshift : transform (toUint (count + 1) + j) scale addConst
        = transform (count + (j + 1)) scale addConst := by
      show transform ((count + 1) % 2 ^ 64 + j) scale addConst = _
      rw [transform_wrap]
      congr 1
      omega
    rw [hshift, available_congr ht.1]
    exact hnone (j + 1) (by omega) (by omega)

/-- On a store that answers, the call is still in its loop after `fuel`
iterations when none of the first `fuel` counts has an available identifier. -/
theorem getUniqueID_running {db : Db} {row : CountRow} {fuel : Nat} (hfree : db.errorFree)
    (hrow : db.count = some row) (hc : row.count < 2 ^ 64) (hs : row.scale < 2 ^ 64)
    (ha : row.addConst < 2 ^ 64)
    (hnone : ∀ j, 1 ≤ j → j ≤ fuel →
      ¬ available db (transform (row.count + j) row.scale row.addConst)) :
    getUniqueID fuel db = none := by
  obtain ⟨_, hfree1⟩ := Db.errorFree_next hfree
  have ht := Db.next_tables db
  have hloop := getUniqueIDLoop_running row.scale row.addConst fuel db.next.2 row.count hfree1
    (by
      intro j hj1 hj2
      rw [available_congr ht.1]
      exact hnone j hj1 hj2)
  unfold getUniqueID
  rw [queryCount_errorFree hfree hrow hc hs ha]
  dsimp only
  rw [hloop]

/-- C16, as amended. On a store that answers without error, `getUniqueID`
returns the identifier of the least count `c = count0 + k`, `k ≥ 1`, whose
identifier `(c * scale + addConst) mod 65536` is nonzero and not assigned to
any user, and persists `c mod 2^64` as the new count, which is `c` itself
unless the 64-bit counter wraps; table `users` is unchanged.  When the
identifier of `count0 + 1` is zero or taken, it is skipped: a later count and
another identifier are returned. -/
theorem getUniqueID_least (fuel : Nat) (db : Db) (row : CountRow) (k : Nat)
    (hfree : db.errorFree) (hrow : db.count = some row) (hc : row.count < 2 ^ 64)
    (hs : row.scale < 2 ^ 64) (ha : row.addConst < 2 ^ 64) (hk : 1 ≤ k) (hfuel : k ≤ fuel)
    (hav : available db (transform (row.count + k) row.scale row.addConst))
    (hleast : ∀ j, 1 ≤ j → j < k →
      ¬ available db (transform (row.count + j) row.scale row.addConst)) :
    (∃ db1, getUniqueID fuel db =
        some ((transform (row.count + k) row.scale row.addConst, none), db1) ∧
      db1.users = db.users ∧
      db1.count = some (CountRow.mk ((row.count + k) % 2 ^ 64) row.scale row.addConst)) ∧
      (row.count + k < 2 ^ 64 → (row.count + k) % 2 ^ 64 = row.count + k) ∧
      (¬ available db (transform (row.count + 1) row.scale row.addConst) →
        1 < k ∧ transform (row.count + k) row.scale row.addConst ≠
          transform (row.count + 1) row.scale row.addConst) := by
  refine ⟨getUniqueID_of_least hfree hrow hc hs ha hk hfuel hav hleast, ?_, ?_⟩
  · intro hsmall
    exact Nat.mod_eq_of_lt hsmall
  · intro hskip
    constructor
    · by_contra hle
      have hk1 : k = 1 := by omega
      subst hk1
      exact hskip hav
    · intro heq
      rw [heq] at hav
      exact hskip hav

/-- Witness for `getUniqueID_least`: in `takenDb` the identifier 52848 of count 1
is taken, the allocation returns 27815, the identifier of count 2. -/
theorem getUniqueID_least_witness :
    ∃ db1, getUniqueID 10 takenDb = some ((transform (0 + 2) 40503 12345, none), db1) ∧
      db1.users = takenDb.users ∧
      db1.count = some (CountRow.mk ((0 + 2) % 2 ^ 64) 40503 12345) :=
  (getUniqueID_least 10 takenDb (CountRow.mk 0 40503 12345) 2 (by decide) (by rfl) (by decide)
    (by decide) (by decide) (by decide) (by decide) (by decide) (by decide)).1

/-- C16, counterexample. From the stored count `2^64 - 1` (scale 1, constant 1,
no users) the least count above the stored one with an available identifier is
`2^64`, with identifier 1; `getUniqueID` returns 1 and persists the count 0,
not `2^64`, and no 64-bit count is greater than the stored one. -/
theorem getUniqueID_persists_wrapped :
    getUniqueID 3 wrapDb =
        some ((1, none), { users := [], count := some (CountRow.mk 0 1 1), faults := [] }) ∧
      transform (18446744073709551615 + 1) 1 1 = 1 ∧
      available wrapDb (transform (18446744073709551615 + 1) 1 1) ∧
      (0 : Nat) ≠ 18446744073709551615 + 1 ∧
      ¬ ∃ c : Nat, c < 2 ^ 64 ∧ 18446744073709551615 < c := by
  refine ⟨by rfl, by rfl, by decide, by decide, ?_⟩
  rintro ⟨c, h1, h2⟩
  norm_num at h1
  omega

/-- C17. On a store that answers without error, if some count after the stored
one has a nonzero, unassigned identifier, the allocator loop ends after `k`
iterations for some `k` of at most 65536: the call is still in its loop for
every bound below `k` and returns the identifier for every bound from `k` on,
65536 included.  The identifier computed by the loop body only depends on the
count modulo 65536, wrap-around of the 64-bit operations included. -/
theorem getUniqueID_terminates (db : Db) (row : CountRow) (hfree : db.errorFree)
    (hrow : db.count = some row) (hc : row.count < 2 ^ 64) (hs : row.scale < 2 ^ 64)
    (ha : row.addConst < 2 ^ 64)
    (hex : ∃ k, 1 ≤ k ∧ available db (transform (row.count + k) row.scale row.addConst)) :
    (∃ k id, 1 ≤ k ∧ k ≤ 65536 ∧
        (∀ fuel, fuel < k → getUniqueID fuel db = none) ∧
        ∀ fuel, k ≤ fuel → ∃ db1, getUniqueID fuel db = some ((id, none), db1)) ∧
      (∃ id db1, getUniqueID 65536 db = some ((id, none), db1)) ∧
      (∀ c1 c2 : Nat, c1 % 65536 = c2 % 65536 →
        toUint (toUint (toUint c1 * row.scale) + row.addConst) % 65536 =
          toUint (toUint (toUint c2 * row.scale) + row.addConst) % 65536) := by
  obtain ⟨k0, hk0, hav0⟩ := hex
  have hex1 : ∃ k, 1 ≤ k ∧ available db (transform (row.count + k) row.scale row.addConst) := by
    refine ⟨(k0 - 1) % 65536 + 1, by omega, ?_⟩
    rw [transform_congr row.scale row.addConst
      (show (row.count + ((k0 - 1) % 65536 + 1)) % 65536 = (row.count + k0) % 65536 by omega)]
    exact hav0
  have hsmall : Nat.find hex1 ≤ 65536 := by
    have hle : Nat.find hex1 ≤ (k0 - 1) % 65536 + 1 := by
      apply Nat.find_min'
      refine ⟨by omega, ?_⟩
      rw [transform_congr row.scale row.addConst
        (show (row.count + ((k0 - 1) % 65536 + 1)) % 65536 = (row.count + k0) % 65536 by omega)]
      exact hav0
    omega
  obtain ⟨hk1, hav1⟩ := Nat.find_spec hex1
  have hleast : ∀ j, 1 ≤ j → j < Nat.find hex1 →
      ¬ available db (transform (row.count + j) row.scale row.addConst) := by
    intro j hj1 hj2 hav
    exact Nat.find_min hex1 hj2 ⟨hj1, hav⟩
  have hall : ∀ fuel, Nat.find hex1 ≤ fuel → ∃ db1, getUniqueID fuel db =
      some ((transform (row.count + Nat.find hex1) row.scale row.addConst, none), db1) := by
    intro fuel hfuel
    obtain ⟨db1, h, _⟩ := getUniqueID_of_least hfree hrow hc hs ha hk1 hfuel hav1 hleast
    exact ⟨db1, h⟩
  have hrun : ∀ fuel, fuel < Nat.find hex1 → getUniqueID fuel db = none := by
    intro fuel hfuel
    exact getUniqueID_running hfree hrow hc hs ha
      (fun j hj1 hj2 => hleast j hj1 (by omega))
  refine ⟨⟨Nat.find hex1, _, hk1, hsmall, hrun, hall⟩, ⟨_, hall 65536 hsmall⟩, ?_⟩
  intro c1 c2 h
  rw [loop_newID, loop_newID]
  exact transform_congr _ _ h

/-- Witness for `getUniqueID_terminates`: `takenDb`, where count 2 has an
available identifier. -/
theorem getUniqueID_terminates_witness :
    ∃ id db1, getUniqueID 65536 takenDb = some ((id, none), db1) :=
  (getUniqueID_terminates takenDb (CountRow.mk 0 40503 12345) (by decide) (by rfl) (by decide)
    (by decide) (by decide) ⟨2, by decide, by decide⟩).2.1

/-! ## The encoded form of a secret -/

/-- Every 6-bit value is recovered from its character, which is neither the
padding character nor a line break. -/
theorem b64Char_facts : ∀ i, i < 64 →
    b64Val (b64Char i) = some i ∧ b64Char i ≠ '=' ∧ b64Char i ≠ '\n' ∧ b64Char i ≠ '\r' := by
  decide

/-- Decoding undoes encoding, quantum by quantum. -/
theorem b64DecodeQuads_encode : ∀ bs : Bytes, (∀ b ∈ bs, b < 256) →
    b64DecodeQuads (b64EncodeList bs) = .ok bs
  | [], _ => rfl
  | [a], h => by
    have ha : a < 256 := h a (by simp)
    obtain ⟨v1, _⟩ := b64Char_facts (a / 4) (by omega)
    obtain ⟨v2, _⟩ := b64Char_facts (a % 4 * 16) (by omega)
    simp only [b64EncodeList, b64DecodeQuads, v1, v2, if_true, and_self]
    congr 2
    omega
  | [a, b], h => by
    have ha : a < 256 := h a (by simp)
    have hb : b < 256 := h b (by simp)
    obtain ⟨v1, _⟩ := b64Char_facts (a / 4) (by omega)
    obtain ⟨v2, _⟩ := b64Char_facts (a % 4 * 16 + b / 16) (by omega)
    obtain ⟨v3, p3, _⟩ := b64Char_facts (b % 16 * 4) (by omega)
    simp only [b64EncodeList, b64DecodeQuads, v1, v2, v3, p3, if_true, if_false]
    congr 2
    · omega
    · congr 1
      omega
  | a :: b :: c :: rest, h => by
    have ha : a < 256 := h a (by simp)
    have hb : b < 256 := h b (by simp)
    have hc : c < 256 := h c (by simp)
    obtain ⟨v1, _⟩ := b64Char_facts (a / 4) (by omega)
    obtain ⟨v2, _⟩ := b64Char_facts (a % 4 * 16 + b / 16) (by omega)
    obtain ⟨v3, p3, _⟩ := b64Char_facts (b % 16 * 4 + c / 64) (by omega)
    obtain ⟨v4, p4, _⟩ := b64Char_facts (c % 64) (by omega)
    have ih := b64DecodeQuads_encode rest (fun x hx => h x (by simp [hx]))
    simp only [b64EncodeList, b64DecodeQuads, v1, v2, v3, v4, p3, p4, if_false, ih]
    congr 2
    · omega
    · congr 1
      · omega
      · congr 1
        omega

/-- The encoder writes no line break. -/
theorem b64EncodeList_no_break : ∀ bs : Bytes, (∀ b ∈ bs, b < 256) →
    ∀ ch ∈ b64EncodeList bs, ch ≠ '\n' ∧ ch ≠ '\r'
  | [], _ => by simp [b64EncodeList]
  | [a], h => by
    have ha : a < 256 := h a (by simp)
    obtain ⟨_, _, n1⟩ := b64Char_facts (a / 4) (by omega)
    obtain ⟨_, _, n2⟩ := b64Char_facts (a % 4 * 16) (by omega)
    intro ch hch
    simp only [b64EncodeList, List.mem_cons, List.mem_singleton, List.not_mem_nil, or_false] at hch
    rcases hch with rfl | rfl | rfl | rfl
    · exact n1
    · exact n2
    · decide
    · decide
  | [a, b], h => by
    have ha : a < 256 := h a (by simp)
    have hb : b < 256 := h b (by simp)
    obtain ⟨_, _, n1⟩ := b64Char_facts (a / 4) (by omega)
    obtain ⟨_, _, n2⟩ := b64Char_facts (a % 4 * 16 + b / 16) (by omega)
    obtain ⟨_, _, n3⟩ := b64Char_facts (b % 16 * 4) (by omega)
    intro ch hch
    simp only [b64EncodeList, List.mem_cons, List.mem_singleton, List.not_mem_nil, or_false] at hch
    rcases hch with rfl | rfl | rfl | rfl
    · exact n1
    · exact n2
    · exact n3
    · decide
  | a :: b :: c :: rest, h => by
    have ha : a < 256 := h a (by simp)
    have hb : b < 256 := h b (by simp)
    have hc : c < 256 := h c (by simp)
    obtain ⟨_, _, n1⟩ := b64Char_facts (a / 4) (by omega)
    obtain ⟨_, _, n2⟩ := b64Char_facts (a % 4 * 16 + b / 16) (by omega)
    obtain ⟨_, _, n3⟩ := b64Char_facts (b % 16 * 4 + c / 64) (by omega)
    obtain ⟨_, _, n4⟩ := b64Char_facts (c % 64) (by omega)
    have ih := b64EncodeList_no_break rest (fun x hx => h x (by simp [hx]))
    intro ch hch
    simp only [b64EncodeList, List.mem_cons] at hch
    rcases hch with rfl | rfl | rfl | rfl | hch
    · exact n1
    · exact n2
    · exact n3
    · exact n4
    · exact ih ch hch

/-- The function `DecodeString` undoes `EncodeToString` on byte slices. -/
theorem base64_roundtrip (bs : Bytes) (h : ∀ b ∈ bs, b < 256) :
    base64DecodeString (base64EncodeToString bs) = .ok bs := by
  unfold base64DecodeString base64EncodeToString
  have hf : (b64EncodeList bs).filter (fun c => !(c = '\n' ∨ c = '\r')) = b64EncodeList bs := by
    rw [List.filter_eq_self]
    intro ch hch
    obtain ⟨h1, h2⟩ := b64EncodeList_no_break bs h ch hch
    simp [h1, h2]
  show b64DecodeQuads ((b64EncodeList bs).filter (fun c => !(c = '\n' ∨ c = '\r'))) = .ok bs
  rw [hf]
  exact b64DecodeQuads_encode bs h

/-- The base64 test vectors of RFC 4648 for the prefixes of `foobar`. -/
theorem base64_test_vectors :
    base64EncodeToString [] = "" ∧
      base64EncodeToString [102] = "Zg==" ∧
      base64EncodeToString [102, 111] = "Zm8=" ∧
      base64EncodeToString [102, 111, 111] = "Zm9v" ∧
      base64EncodeToString [102, 111, 111, 98] = "Zm9vYg==" ∧
      base64EncodeToString [102, 111, 111, 98, 97] = "Zm9vYmE=" ∧
      base64EncodeToString [102, 111, 111, 98, 97, 114] = "Zm9vYmFy" := by
  refine ⟨rfl, rfl, rfl, rfl, rfl, rfl, rfl⟩

/-- The digits written by `bigEndianAux` carry the value of `n` in front of `acc`. -/
theorem bigEndianAux_value : ∀ (fuel n : Nat) (acc : Bytes), n ≤ fuel →
    (bigEndianAux fuel n acc).foldl (fun v b => v * 256 + b) 0
      = acc.foldl (fun v b => v * 256 + b) n := by
  intro fuel
  induction fuel with
  | zero =>
    intro n acc h
    have : n = 0 := by omega
    subst this
    rfl
  | succ f ih =>
    intro n acc h
    unfold bigEndianAux
    split
    · rename_i h0
      rw [h0]
    · rw [ih (n / 256) _ (by omega)]
      simp only [List.foldl_cons]
      congr 1
      omega

/-- The digits written by `bigEndianAux` are bytes. -/
theorem bigEndianAux_bytes : ∀ (fuel n : Nat) (acc : Bytes), (∀ b ∈ acc, b < 256) →
    ∀ b ∈ bigEndianAux fuel n acc, b < 256 := by
  intro fuel
  induction fuel with
  | zero =>
    intro n acc h
    exact h
  | succ f ih =>
    intro n acc h
    unfold bigEndianAux
    split
    · exact h
    · apply ih
      intro b hb
      rcases List.mem_cons.1 hb with rfl | hb
      · omega
      · exact h b hb

/-- A value below `256^k` has at most `k` digits. -/
theorem bigEndianAux_length : ∀ (fuel n k : Nat) (acc : Bytes), n < 256 ^ k →
    (bigEndianAux fuel n acc).length ≤ k + acc.length := by
  intro fuel
  induction fuel with
  | zero =>
    intro n k acc _
    simp [bigEndianAux]
  | succ f ih =>
    intro n k acc h
    unfold bigEndianAux
    split
    · omega
    · rename_i hn
      cases k with
      | zero =>
        simp at h
        exact absurd h hn
      | succ k =>
        have hdiv : n / 256 < 256 ^ k := by
          rw [Nat.div_lt_iff_lt_mul (by decide)]
          rw [pow_succ] at h
          exact h
        have := ih (n / 256) k (n % 256 :: acc) hdiv
        simp only [List.length_cons] at this
        omega

/-- C15. For every secret value `v` below `2^512`, `Base64` is the standard
padded base64 of the big-endian bytes of `v`: decoding the string gives those
bytes, reading them as a big-endian unsigned integer gives `v`, there are at
most 64 of them, and secrets with the same string have the same value. -/
theorem Secret_Base64_roundtrip (s : Secret) (hv : s.value < 2 ^ 512) :
    s.Base64 = base64EncodeToString (bigIntBytes s.value) ∧
      base64DecodeString s.Base64 = .ok (bigIntBytes s.value) ∧
      bigEndianValue (bigIntBytes s.value) = s.value ∧
      (bigIntBytes s.value).length ≤ 64 ∧
      (∀ s1 : Secret, s1.value < 2 ^ 512 → s1.Base64 = s.Base64 → s1.value = s.value) := by
  have hbytes : ∀ v : Nat, ∀ b ∈ bigIntBytes v, b < 256 := by
    intro v
    exact bigEndianAux_bytes v v [] (by simp)
  have hval : ∀ v : Nat, bigEndianValue (bigIntBytes v) = v := by
    intro v
    unfold bigEndianValue bigIntBytes
    rw [bigEndianAux_value v v [] (le_refl v)]
    rfl
  have hdec : ∀ t : Secret, base64DecodeString t.Base64 = .ok (bigIntBytes t.value) := by
    intro t
    exact base64_roundtrip _ (hbytes t.value)
  refine ⟨rfl, hdec s, hval s.value, ?_, ?_⟩
  · have h64 : s.value < 256 ^ 64 := by
      have : (256 : Nat) ^ 64 = 2 ^ 512 := by norm_num
      rw [this]
      exact hv
    have := bigEndianAux_length s.value s.value 64 [] h64
    simpa [bigIntBytes] using this
  · intro s1 _ heq
    have h1 := hdec s1
    rw [heq, hdec s] at h1
    injection h1 with h1
    rw [← hval s1.value, ← hval s.value, h1]

/-- Witness for `Secret_Base64_roundtrip`: the value 65536 has the bytes 1, 0, 0
and the string `AQAA`. -/
theorem Secret_Base64_roundtrip_witness :
    base64DecodeString (Secret.Base64 { value := 65536, expiration := 0 }) = .ok [1, 0, 0] :=
  (Secret_Base64_roundtrip { value := 65536, expiration := 0 } (by norm_num)).2.1

end Auth

/-! # The move history: packing and unpacking -/

namespace Game

/-- The mask `0x7F` takes the value modulo 128. -/
theorem land_7F (c : Nat) : c &&& 0x7F = c % 128 := Nat.and_pow_two_sub_one_eq_mod c 7

/-- A shift by 7 bits divides by 128. -/
theorem shr_7 (c : Nat) : c >>> 7 = c / 128 := Nat.shiftRight_eq_div_pow c 7

/-- An array of 18 entries, entry by entry. -/
theorem length_eq_18 (m : List Nat) (h : m.length = 18) :
    ∃ x0 x1 x2 x3 x4 x5 x6 x7 x8 x9 x10 x11 x12 x13 x14 x15 x16 x17, m = [x0, x1, x2, x3, x4, x5, x6, x7, x8, x9, x10, x11, x12, x13, x14, x15, x16, x17] := by
  rcases m with _ | ⟨x0, _ | ⟨x1, _ | ⟨x2, _ | ⟨x3, _ | ⟨x4, _ | ⟨x5, _ | ⟨x6, _ | ⟨x7, _ | ⟨x8, _ | ⟨x9, _ | ⟨x10, _ | ⟨x11, _ | ⟨x12, _ | ⟨x13, _ | ⟨x14, _ | ⟨x15, _ | ⟨x16, _ | ⟨x17, _ | ⟨y, m⟩⟩⟩⟩⟩⟩⟩⟩⟩⟩⟩⟩⟩⟩⟩⟩⟩⟩⟩
  all_goals first
    | (simp at h; done)
    | exact ⟨x0, x1, x2, x3, x4, x5, x6, x7, x8, x9, x10, x11, x12, x13, x14, x15, x16, x17, rfl⟩

/-- Nine digits below 128 are recovered from their Horner sum, which is below `2^63`. -/
theorem horner9 (d0 d1 d2 d3 d4 d5 d6 d7 d8 : Nat) (h0 : d0 < 128) (h1 : d1 < 128) (h2 : d2 < 128) (h3 : d3 < 128) (h4 : d4 < 128) (h5 : d5 < 128) (h6 : d6 < 128) (h7 : d7 < 128) (h8 : d8 < 128) :
    (d0 + 128 * (d1 + 128 * (d2 + 128 * (d3 + 128 * (d4 + 128 * (d5 + 128 * (d6 + 128 * (d7 + 128 * (d8))))))))) % 128 = d0 ∧
      (d0 + 128 * (d1 + 128 * (d2 + 128 * (d3 + 128 * (d4 + 128 * (d5 + 128 * (d6 + 128 * (d7 + 128 * (d8))))))))) / 128 % 128 = d1 ∧
      (d0 + 128 * (d1 + 128 * (d2 + 128 * (d3 + 128 * (d4 + 128 * (d5 + 128 * (d6 + 128 * (d7 + 128 * (d8))))))))) / 16384 % 128 = d2 ∧
      (d0 + 128 * (d1 + 128 * (d2 + 128 * (d3 + 128 * (d4 + 128 * (d5 + 128 * (d6 + 128 * (d7 + 128 * (d8))))))))) / 2097152 % 128 = d3 ∧
      (d0 + 128 * (d1 + 128 * (d2 + 128 * (d3 + 128 * (d4 + 128 * (d5 + 128 * (d6 + 128 * (d7 + 128 * (d8))))))))) / 268435456 % 128 = d4 ∧
      (d0 + 128 * (d1 + 128 * (d2 + 128 * (d3 + 128 * (d4 + 128 * (d5 + 128 * (d6 + 128 * (d7 + 128 * (d8))))))))) / 34359738368 % 128 = d5 ∧
      (d0 + 128 * (d1 + 128 * (d2 + 128 * (d3 + 128 * (d4 + 128 * (d5 + 128 * (d6 + 128 * (d7 + 128 * (d8))))))))) / 4398046511104 % 128 = d6 ∧
      (d0 + 128 * (d1 + 128 * (d2 + 128 * (d3 + 128 * (d4 + 128 * (d5 + 128 * (d6 + 128 * (d7 + 128 * (d8))))))))) / 562949953421312 % 128 = d7 ∧
      (d0 + 128 * (d1 + 128 * (d2 + 128 * (d3 + 128 * (d4 + 128 * (d5 + 128 * (d6 + 128 * (d7 + 128 * (d8))))))))) / 72057594037927936 % 128 = d8 ∧
      d0 + 128 * (d1 + 128 * (d2 + 128 * (d3 + 128 * (d4 + 128 * (d5 + 128 * (d6 + 128 * (d7 + 128 * (d8)))))))) < 9223372036854775808 := by
  refine ⟨?_, ?_, ?_, ?_, ?_, ?_, ?_, ?_, ?_, ?_⟩ <;> omega

/-- The Horner sum of the nine lowest base-128 digits of a word is the word modulo `2^63`. -/
theorem digits9 (a : Nat) :
    a % 128 + 128 * (a / 128 % 128 + 128 * (a / 16384 % 128 + 128 * (a / 2097152 % 128 + 128 * (a / 268435456 % 128 + 128 * (a / 34359738368 % 128 + 128 * (a / 4398046511104 % 128 + 128 * (a / 562949953421312 % 128 + 128 * (a / 72057594037927936 % 128)))))))) = a % 9223372036854775808 := by
  omega

/-- The two words of `Compress` on entries below 128, in Horner form. -/
theorem Compress_explicit (x0 x1 x2 x3 x4 x5 x6 x7 x8 x9 x10 x11 x12 x13 x14 x15 x16 x17 : Nat)
    (h0 : x0 < 128) (h1 : x1 < 128) (h2 : x2 < 128) (h3 : x3 < 128) (h4 : x4 < 128) (h5 : x5 < 128) (h6 : x6 < 128) (h7 : x7 < 128) (h8 : x8 < 128) (h9 : x9 < 128) (h10 : x10 < 128) (h11 : x11 < 128) (h12 : x12 < 128) (h13 : x13 < 128) (h14 : x14 < 128) (h15 : x15 < 128) (h16 : x16 < 128) (h17 : x17 < 128) :
    Compress [x0, x1, x2, x3, x4, x5, x6, x7, x8, x9, x10, x11, x12, x13, x14, x15, x16, x17] =
      (x0 + 128 * (x1 + 128 * (x2 + 128 * (x3 + 128 * (x4 + 128 * (x5 + 128 * (x6 + 128 * (x7 + 128 * (x8)))))))),
       x9 + 128 * (x10 + 128 * (x11 + 128 * (x12 + 128 * (x13 + 128 * (x14 + 128 * (x15 + 128 * (x16 + 128 * (x17))))))))) := by
  simp only [Compress, compressLoop, toUint64, List.getD_cons_zero, List.getD_cons_succ]
  norm_num
  constructor <;> omega

/-- The 18 entries written by `Decompress`: the base-128 digits of the two words. -/
theorem Decompress_explicit (m : MoveHistory) (h : m.length = 18) (a b : Nat) :
    Decompress m a b = [a % 128, a / 128 % 128, a / 16384 % 128, a / 2097152 % 128, a / 268435456 % 128, a / 34359738368 % 128, a / 4398046511104 % 128, a / 562949953421312 % 128, a / 72057594037927936 % 128, b % 128, b / 128 % 128, b / 16384 % 128, b / 2097152 % 128, b / 268435456 % 128, b / 34359738368 % 128, b / 4398046511104 % 128, b / 562949953421312 % 128, b / 72057594037927936 % 128] := by
  obtain ⟨x0, x1, x2, x3, x4, x5, x6, x7, x8, x9, x10, x11, x12, x13, x14, x15, x16, x17, rfl⟩ := length_eq_18 m h
  simp only [Decompress, decompressWord, land_7F, shr_7, List.set_cons_zero, List.set_cons_succ,
    Nat.zero_add, Nat.reduceAdd, Nat.reduceMul, Nat.mul_zero, Nat.add_zero, Nat.mul_one,
    Nat.div_div_eq_div_mul]

/-- C19. For every move history whose 18 entries are below 128, decompressing
the pair returned by `Compress` gives the move history back, whatever the
receiver held before.  Entries 0 to 8 are the base-128 digits of the first
word, entry 0 the lowest, and entries 9 to 17 those of the second word; both
words are below `2^63`. -/
theorem Decompress_Compress (m m0 : MoveHistory) (hlen : m.length = 18)
    (hlen0 : m0.length = 18) (hlt : ∀ x ∈ m, x < 128) :
    Decompress m0 (Compress m).1 (Compress m).2 = m ∧
      (∀ i, i < 9 → (Compress m).1 / 128 ^ i % 128 = m.getD i 0 ∧
        (Compress m).2 / 128 ^ i % 128 = m.getD (i + 9) 0) ∧
      (Compress m).1 < 2 ^ 63 ∧ (Compress m).2 < 2 ^ 63 := by
  obtain ⟨x0, x1, x2, x3, x4, x5, x6, x7, x8, x9, x10, x11, x12, x13, x14, x15, x16, x17, rfl⟩ := length_eq_18 m hlen
  have hc := Compress_explicit x0 x1 x2 x3 x4 x5 x6 x7 x8 x9 x10 x11 x12 x13 x14 x15 x16 x17 (hlt x0 (by simp)) (hlt x1 (by simp)) (hlt x2 (by simp)) (hlt x3 (by simp)) (hlt x4 (by simp)) (hlt x5 (by simp)) (hlt x6 (by simp)) (hlt x7 (by simp)) (hlt x8 (by simp)) (hlt x9 (by simp)) (hlt x10 (by simp)) (hlt x11 (by simp)) (hlt x12 (by simp)) (hlt x13 (by simp)) (hlt x14 (by simp)) (hlt x15 (by simp)) (hlt x16 (by simp)) (hlt x17 (by simp))
  obtain ⟨a0, a1, a2, a3, a4, a5, a6, a7, a8, alt⟩ :=
    horner9 x0 x1 x2 x3 x4 x5 x6 x7 x8 (hlt x0 (by simp)) (hlt x1 (by simp)) (hlt x2 (by simp)) (hlt x3 (by simp)) (hlt x4 (by simp)) (hlt x5 (by simp)) (hlt x6 (by simp)) (hlt x7 (by simp)) (hlt x8 (by simp))
  obtain ⟨b0, b1, b2, b3, b4, b5, b6, b7, b8, blt⟩ :=
    horner9 x9 x10 x11 x12 x13 x14 x15 x16 x17 (hlt x9 (by simp)) (hlt x10 (by simp)) (hlt x11 (by simp)) (hlt x12 (by simp)) (hlt x13 (by simp)) (hlt x14 (by simp)) (hlt x15 (by simp)) (hlt x16 (by simp)) (hlt x17 (by simp))
  rw [hc]
  refine ⟨?_, ?_, ?_, ?_⟩
  · rw [Decompress_explicit m0 hlen0]
    simp only [a0, a1, a2, a3, a4, a5, a6, a7, a8, b0, b1, b2, b3, b4, b5, b6, b7, b8]
  · intro i hi
    interval_cases i <;>
      simp only [List.getD_cons_zero, List.getD_cons_succ, Nat.reduceAdd, Nat.reducePow,
        Nat.div_one]
    · exact ⟨a0, b0⟩
    · exact ⟨a1, b1⟩
    · exact ⟨a2, b2⟩
    · exact ⟨a3, b3⟩
    · exact ⟨a4, b4⟩
    · exact ⟨a5, b5⟩
    · exact ⟨a6, b6⟩
    · exact ⟨a7, b7⟩
    · exact ⟨a8, b8⟩
  · exact alt
  · exact blt

/-- C20. For all words `a` and `b`, `Decompress` writes 18 entries below 128,
and compressing them returns the low 63 bits of each word; the round trip is
the identity exactly when both words are below `2^63`. -/
theorem Compress_Decompress (m0 : MoveHistory) (hlen0 : m0.length = 18) (a b : Nat) :
    (Decompress m0 a b).length = 18 ∧ (∀ x ∈ Decompress m0 a b, x < 128) ∧
      Compress (Decompress m0 a b) = (a % 2 ^ 63, b % 2 ^ 63) ∧
      (Compress (Decompress m0 a b) = (a, b) ↔ a < 2 ^ 63 ∧ b < 2 ^ 63) := by
  have hc : Compress (Decompress m0 a b) = (a % 2 ^ 63, b % 2 ^ 63) := by
    rw [Decompress_explicit m0 hlen0, Compress_explicit _ _ _ _ _ _ _ _ _ _ _ _ _ _ _ _ _ _
      (Nat.mod_lt _ (by decide)) (Nat.mod_lt _ (by decide)) (Nat.mod_lt _ (by decide)) (Nat.mod_lt _ (by decide)) (Nat.mod_lt _ (by decide)) (Nat.mod_lt _ (by decide)) (Nat.mod_lt _ (by decide)) (Nat.mod_lt _ (by decide)) (Nat.mod_lt _ (by decide)) (Nat.mod_lt _ (by decide)) (Nat.mod_lt _ (by decide)) (Nat.mod_lt _ (by decide)) (Nat.mod_lt _ (by decide)) (Nat.mod_lt _ (by decide)) (Nat.mod_lt _ (by decide)) (Nat.mod_lt _ (by decide)) (Nat.mod_lt _ (by decide)) (Nat.mod_lt _ (by decide)), digits9 a, digits9 b]
    norm_num
  refine ⟨?_, ?_, hc, ?_⟩
  · rw [Decompress_explicit m0 hlen0]
    rfl
  · rw [Decompress_explicit m0 hlen0]
    intro x hx
    simp only [List.mem_cons, List.mem_singleton, List.not_mem_nil, or_false] at hx
    rcases hx with h | h | h | h | h | h | h | h | h | h | h | h | h | h | h | h | h | h <;>
      rw [h] <;> exact Nat.mod_lt _ (by decide)
  · rw [hc, Prod.mk.injEq, Nat.mod_eq_iff_lt (by norm_num), Nat.mod_eq_iff_lt (by norm_num)]

/-- Witness for `Decompress_Compress`: the move history 1, 2, ..., 18. -/
theorem Decompress_Compress_witness :
    Decompress (List.replicate 18 0)
        (Compress [1, 2, 3, 4, 5, 6, 7, 8, 9, 10, 11, 12, 13, 14, 15, 16, 17, 18]).1
        (Compress [1, 2, 3, 4, 5, 6, 7, 8, 9, 10, 11, 12, 13, 14, 15, 16, 17, 18]).2 =
      [1, 2, 3, 4, 5, 6, 7, 8, 9, 10, 11, 12, 13, 14, 15, 16, 17, 18] :=
  (Decompress_Compress [1, 2, 3, 4, 5, 6, 7, 8, 9, 10, 11, 12, 13, 14, 15, 16, 17, 18]
    (List.replicate 18 0) (by rfl) (by rfl) (by decide)).1

/-- Witness for `Compress_Decompress`: the words `2^64 - 1` and `2^63 + 5` lose
their top bit. -/
theorem Compress_Decompress_witness :
    Compress (Decompress (List.replicate 18 0) 18446744073709551615 9223372036854775813) =
      (18446744073709551615 % 2 ^ 63, 9223372036854775813 % 2 ^ 63) :=
  (Compress_Decompress (List.replicate 18 0) (by rfl) 18446744073709551615
    9223372036854775813).2.2.1

end Game
